import Mathlib

/-!
# stdin2testu01: the buffered standard-input word reader

A shallow embedding of `stdin2testu01.c` (commons-rng, examples-stress).

* Memory and the input stream are sequences of octets; a `uint32_t` or
  `uint64_t` object is read from its octets in the byte order of the host,
  which is a parameter (`Endian`) of every function that looks at memory.
* The C library is the environment: `fread`, `feof`, `ferror`, `freopen`,
  `perror`, `printf` and `exit` are given the meaning the C standard gives
  them, over an explicit process state `Proc`.
* A function of the program that may call `exit` returns a `Res`: either it
  returned (`Res.ret`), or the process ended inside it (`Res.exit`), or it
  indexed its buffer outside the array (`Res.undefined`).
-/

namespace Stdin2TestU01

/-! ## Octets and byte order -/

/-- One octet, of memory or of the input stream. -/
abbrev Byte := Fin 256

/-- Byte order of the host. -/
inductive Endian where
  | little
  | big
  deriving DecidableEq, Repr

/-- Value of an unsigned object whose octets are listed from the lowest
address, least significant octet first. -/
def fromBytesLE : List Byte → Nat
  | [] => 0
  | b :: bs => b.val + 256 * fromBytesLE bs

/-- The `size` octets of the unsigned value `v`, least significant first. -/
def toBytesLE : Nat → Nat → List Byte
  | 0, _ => []
  | size + 1, v => Fin.ofNat v :: toBytesLE size (v / 256)

/-- Value of an unsigned object from its octets in address order. -/
def fromBytes (e : Endian) (bs : List Byte) : Nat :=
  match e with
  | .little => fromBytesLE bs
  | .big => fromBytesLE bs.reverse

/-- Object representation, in address order, of the unsigned value `v` held
in `size` octets. -/
def toBytes (e : Endian) (size v : Nat) : List Byte :=
  match e with
  | .little => toBytesLE size v
  | .big => (toBytesLE size v).reverse

/-- The octets of a sequence of `size`-octet words as they lie in a file or
in an array written by the host. -/
def encode (e : Endian) (size : Nat) (ws : List Nat) : List Byte :=
  ws.flatMap (toBytes e size)

/-- Element `i` of an array of `size`-octet unsigned objects stored in `buf`. -/
def load (e : Endian) (size : Nat) (buf : List Byte) (i : Nat) : Nat :=
  fromBytes e ((buf.drop (size * i)).take size)

/-- Memory after `bytes` have been copied to its start. -/
def store (bytes buf : List Byte) : List Byte :=
  bytes ++ buf.drop bytes.length

/-! ## The C library stream -/

/-- What the descriptor behind a stream delivers next: an octet, or a failed
read.  The end of the list is the end of the file. -/
inductive Item where
  | byte (b : Byte)
  | fault
  deriving DecidableEq, Repr

/-- A C library stream: the data still to come, the end-of-file and error
indicators (sticky, as in C), whether it was reopened in binary mode, and
the number of `fread` calls made on it. -/
structure FILE where
  src : List Item
  eof : Bool
  err : Bool
  binary : Bool
  reads : Nat
  deriving DecidableEq, Repr

/-- Outcome of collecting octets from a descriptor. -/
structure Gathered where
  bytes : List Byte
  rest : List Item
  eof : Bool
  err : Bool
  deriving DecidableEq, Repr

/-- Collect up to `n` octets: stop when `n` are there, at the end of the
file (end-of-file is signalled) or at a failed read (an error is
signalled). -/
def gather : Nat → List Item → Gathered
  | 0, src => ⟨[], src, false, false⟩
  | _ + 1, [] => ⟨[], [], true, false⟩
  | _ + 1, Item.fault :: rest => ⟨[], rest, false, true⟩
  | n + 1, Item.byte b :: rest =>
    let g := gather n rest
    { g with bytes := b :: g.bytes }

/-- Result of `fread`: the number of complete elements, the octets copied
to the destination, and the stream afterwards. -/
structure ReadResult where
  count : Nat
  bytes : List Byte
  file : FILE
  deriving DecidableEq, Repr

/-- The C library `fread(ptr, size, nmemb, stream)`. -/
def fread (size nmemb : Nat) (f : FILE) : ReadResult :=
  let g := gather (size * nmemb) f.src
  { count := g.bytes.length / size
    bytes := g.bytes
    file := { f with src := g.rest, eof := f.eof || g.eof, err := f.err || g.err,
                     reads := f.reads + 1 } }

/-- The C library `feof`. -/
def feof (f : FILE) : Bool := f.eof

/-- The C library `ferror`. -/
def ferror (f : FILE) : Bool := f.err

/-- The C library `freopen(NULL, "rb", stream)`: same file, binary mode, both
indicators cleared. -/
def freopen_rb (f : FILE) : FILE :=
  { f with eof := false, err := false, binary := true }

/-! ## Process state -/

/-- State of the process that the program can observe or change. -/
structure Proc where
  /-- Standard input. -/
  stdin : FILE
  /-- Everything written to standard output so far. -/
  stdout : List Char
  /-- Everything written to standard error so far. -/
  stderr : List Char
  /-- Text of `strerror(errno)`. -/
  errno : List Char
  /-- Contents of the block `util_Malloc` hands out for the reader state. -/
  heap : List Byte
  /-- The `static size_t last_read` of `nextInt`. -/
  nextInt_last_read : Nat
  /-- The `static size_t last_read` of `nextLong`. -/
  nextLong_last_read : Nat
  deriving DecidableEq, Repr

/-- The C library `printf` and `putchar`: append to standard output. -/
def Proc.printf (p : Proc) (text : List Char) : Proc :=
  { p with stdout := p.stdout ++ text }

/-- The C library `perror(s)`: `s`, a colon, a blank, the description of
`errno` and a newline, appended to standard error. -/
def Proc.perror (p : Proc) (s : List Char) : Proc :=
  { p with stderr := p.stderr ++ s ++ [':', ' '] ++ p.errno ++ ['\n'] }

/-- How a call ends. -/
inductive Res (α : Type) where
  /-- The function returned `a`. -/
  | ret (a : α) (p : Proc)
  /-- The function called `exit(code)`. -/
  | exit (code : Nat) (p : Proc)
  /-- The function indexed the buffer outside the array. -/
  | undefined
  deriving DecidableEq, Repr

/-! ## The reader -/

def BUFFER_LENGTH_32 : Nat := 2048

/-- The 64-bit buffer must be the same size. -/
def BUFFER_LENGTH_64 : Nat := BUFFER_LENGTH_32 / 2

/-- The struct `StdinReader_state`: the storage of `uint32_t buffer[BUFFER_LENGTH_32]`
as octets, and `uint32_t index`.  `Stdin64Reader_state` is the same storage
read as `uint64_t buffer[BUFFER_LENGTH_64]`; `nextLong` casts the same pointer. -/
structure StdinReader_state where
  buffer : List Byte
  index : Nat
  deriving DecidableEq, Repr

/-- Lines 169-172 of `nextInt`: `random = state->buffer[state->index]; ++state->index;
return random;`. -/
def nextInt_fetch (e : Endian) (sta : StdinReader_state) (p : Proc) :
    Res (Nat × StdinReader_state) :=
  if sta.index < BUFFER_LENGTH_32 then
    .ret (load e 4 sta.buffer sta.index, { sta with index := (sta.index + 1) % 2 ^ 32 }) p
  else
    .undefined

/-- Method to read 32-bit input from stdin (`nextInt(par, sta)`; `par` is unused). -/
def nextInt (e : Endian) (sta : StdinReader_state) (p : Proc) :
    Res (Nat × StdinReader_state) :=
  if sta.index ≥ p.nextInt_last_read then
    -- Refill.
    let r := fread 4 BUFFER_LENGTH_32 p.stdin
    let sta := { sta with buffer := store r.bytes sta.buffer }
    let p := { p with stdin := r.file, nextInt_last_read := r.count }
    if r.count ≠ BUFFER_LENGTH_32 ∧ r.count = 0 then
      -- Allow reading less than the buffer length, but not zero
      if feof p.stdin then
        -- End of stream, just exit. This is used for testing.
        .exit 0 p
      else if ferror p.stdin then
        .exit 1 (p.perror "[ERROR] Failed to read stdin".toList)
      else
        .exit 1 (p.printf "[ERROR] No data from stdin\n".toList)
    else
      nextInt_fetch e { sta with index := 0 } p
  else
    nextInt_fetch e sta p

/-- Lines 207-210 of `nextLong`. -/
def nextLong_fetch (e : Endian) (sta : StdinReader_state) (p : Proc) :
    Res (Nat × StdinReader_state) :=
  if sta.index < BUFFER_LENGTH_64 then
    .ret (load e 8 sta.buffer sta.index, { sta with index := (sta.index + 1) % 2 ^ 32 }) p
  else
    .undefined

/-- Dedicated method to read 64-bit input from stdin. -/
def nextLong (e : Endian) (sta : StdinReader_state) (p : Proc) :
    Res (Nat × StdinReader_state) :=
  if sta.index ≥ p.nextLong_last_read then
    -- Refill.
    let r := fread 8 BUFFER_LENGTH_64 p.stdin
    let sta := { sta with buffer := store r.bytes sta.buffer }
    let p := { p with stdin := r.file, nextLong_last_read := r.count }
    if r.count ≠ BUFFER_LENGTH_64 ∧ r.count = 0 then
      if feof p.stdin then
        .exit 0 p
      else if ferror p.stdin then
        .exit 1 (p.perror "[ERROR] Failed to read stdin".toList)
      else
        .exit 1 (p.printf "[ERROR] No data from stdin\n".toList)
    else
      nextLong_fetch e { sta with index := 0 } p
  else
    nextLong_fetch e sta p

/-- Lines 149-172 of `nextInt`: what the function does once `fread` has returned
`r` in a refill, whatever the C library made of the read. -/
def nextInt_refilled (e : Endian) (sta : StdinReader_state) (p : Proc) (r : ReadResult) :
    Res (Nat × StdinReader_state) :=
  let sta := { sta with buffer := store r.bytes sta.buffer }
  let p := { p with stdin := r.file, nextInt_last_read := r.count }
  if r.count ≠ BUFFER_LENGTH_32 ∧ r.count = 0 then
    if feof p.stdin then
      .exit 0 p
    else if ferror p.stdin then
      .exit 1 (p.perror "[ERROR] Failed to read stdin".toList)
    else
      .exit 1 (p.printf "[ERROR] No data from stdin\n".toList)
  else
    nextInt_fetch e { sta with index := 0 } p

/-- Lines 187-210 of `nextLong`: what the function does once `fread` has returned
`r` in a refill. -/
def nextLong_refilled (e : Endian) (sta : StdinReader_state) (p : Proc) (r : ReadResult) :
    Res (Nat × StdinReader_state) :=
  let sta := { sta with buffer := store r.bytes sta.buffer }
  let p := { p with stdin := r.file, nextLong_last_read := r.count }
  if r.count ≠ BUFFER_LENGTH_64 ∧ r.count = 0 then
    if feof p.stdin then
      .exit 0 p
    else if ferror p.stdin then
      .exit 1 (p.perror "[ERROR] Failed to read stdin".toList)
    else
      .exit 1 (p.printf "[ERROR] No data from stdin\n".toList)
  else
    nextLong_fetch e { sta with index := 0 } p

/-- The struct `unif01_Gen` of TestU01 as `createStdinReader` fills it:
`GetBits` is `nextInt`, `GetU01` is `nextDouble`, `Write` is `dummy`, `param`
is `NULL`. -/
structure unif01_Gen where
  state : StdinReader_state
  name : List Char
  deriving DecidableEq, Repr

/-- The function `createStdinReader`. -/
def createStdinReader (p : Proc) : unif01_Gen × Proc :=
  let state : StdinReader_state := { buffer := p.heap, index := 0 }
  let name := "stdin".toList
  -- Read binary input.
  let p := { p with stdin := freopen_rb p.stdin }
  let state := { state with index := BUFFER_LENGTH_32 }
  ({ state := state, name := name }, p)


/-- Successive calls of `nextInt` on the same reader: the values returned
by `n` calls, unless the process ends before. -/
def nextInt_calls (e : Endian) : Nat → StdinReader_state → Proc →
    Res (List Nat × StdinReader_state)
  | 0, sta, p => .ret ([], sta) p
  | n + 1, sta, p =>
    match nextInt e sta p with
    | .ret (v, sta) p =>
      match nextInt_calls e n sta p with
      | .ret (vs, sta) p => .ret (v :: vs, sta) p
      | .exit code p => .exit code p
      | .undefined => .undefined
    | .exit code p => .exit code p
    | .undefined => .undefined

/-! ## Floating point -/

/-- A value of the C type `double` (IEEE 754 binary64); the sign of a zero is
not recorded. -/
inductive Double where
  | finite (q : ℚ)
  | inf (negative : Bool)
  | nan

/-- Nearest integer, ties to the even one. -/
def roundHalfEven (x : ℚ) : ℤ :=
  let f := ⌊x⌋
  let d := x - f
  if d < 1 / 2 then f
  else if 1 / 2 < d then f + 1
  else if f % 2 = 0 then f
  else f + 1

/-- Rounding of an exact result to binary64, to nearest, ties to even: a
53-bit significand at the exponent of the value, not below the subnormal
exponent -1074; infinity when the rounded value leaves the range. -/
def Double.round (x : ℚ) : Double :=
  if x = 0 then .finite 0
  else
    let ex : ℤ := max (Int.log 2 |x| - 52) (-1074)
    let r : ℚ := roundHalfEven (x / 2 ^ ex) * 2 ^ ex
    if 2 ^ 1024 ≤ |r| then .inf (decide (x < 0)) else .finite r

/-- Conversion of an `unsigned long` to `double`. -/
def Double.ofULong (n : Nat) : Double := Double.round n

/-- The constant `4294967296.0`. -/
def two32 : Double := .finite 4294967296

/-- Division of two `double` values. -/
def Double.div : Double → Double → Double
  | .nan, _ => .nan
  | _, .nan => .nan
  | .inf _, .inf _ => .nan
  | .inf s, .finite b => .inf (s != decide (b < 0))
  | .finite _, .inf _ => .finite 0
  | .finite a, .finite b =>
    if b = 0 then (if a = 0 then .nan else .inf (decide (a < 0)))
    else Double.round (a / b)

/-- The function `nextDouble`: `return nextInt(par, sta) / 4294967296.0;`. -/
def nextDouble (e : Endian) (sta : StdinReader_state) (p : Proc) :
    Res (Double × StdinReader_state) :=
  match nextInt e sta p with
  | .ret (v, sta) p => .ret (Double.div (Double.ofULong v) two32, sta) p
  | .exit code p => .exit code p
  | .undefined => .undefined

/-! ## Printing -/

/-- Lookup table for binary representation of bytes. -/
def bit_rep : List String :=
  ["0000", "0001", "0010", "0011", "0100", "0101", "0110", "0111",
   "1000", "1001", "1010", "1011", "1100", "1101", "1110", "1111"]

/-- The characters `printByte(byte)` writes to stdout. -/
def printByte (byte : Nat) : List Char :=
  (bit_rep.getD (byte >>> 4) "").toList ++ (bit_rep.getD (byte &&& 0x0F) "").toList

/-- Right-justify in a field of `width` columns, as `printf` does for a
conversion with a width. -/
def padLeft (width : Nat) (s : List Char) : List Char :=
  List.replicate (width - s.length) ' ' ++ s

/-- The `printf` conversions `%u` and `%lu` with a field width. -/
def fmt_u (width n : Nat) : List Char :=
  padLeft width (Nat.toDigits 10 n)

/-- The `printf` conversions `%d` and `%ld` with a field width. -/
def fmt_d (width : Nat) (z : Int) : List Char :=
  padLeft width (if z < 0 then '-' :: Nat.toDigits 10 z.natAbs else Nat.toDigits 10 z.toNat)

/-- The cast `(int32_t) value` of a `uint32_t`. -/
def toInt32 (value : Nat) : Int :=
  if value % 2 ^ 32 < 2 ^ 31 then (value % 2 ^ 32 : Nat) else ((value % 2 ^ 32 : Nat) : Int) - 2 ^ 32

/-- The cast `(int64_t) value` of a `uint64_t`. -/
def toInt64 (value : Nat) : Int :=
  if value % 2 ^ 64 < 2 ^ 63 then (value % 2 ^ 64 : Nat) else ((value % 2 ^ 64 : Nat) : Int) - 2 ^ 64

/-- The characters `printInt(value)` writes to stdout; the parameter is a
`uint32_t`. -/
def printInt (value : Nat) : List Char :=
  let value := value % 2 ^ 32
  -- Write out as 4 bytes with spaces between them, high byte first.
  printByte (((value >>> 24) &&& 0xff) % 256) ++ [' '] ++
  printByte (((value >>> 16) &&& 0xff) % 256) ++ [' '] ++
  printByte (((value >>> 8) &&& 0xff) % 256) ++ [' '] ++
  printByte ((value &&& 0xff) % 256) ++
  -- Write the unsigned and signed int value
  ([' ', ' '] ++ fmt_u 10 value ++ [' '] ++ fmt_d 11 (toInt32 value) ++ ['\n'])

/-- The characters `printLong(value)` writes to stdout; the parameter is a
`uint64_t`. -/
def printLong (value : Nat) : List Char :=
  let value := value % 2 ^ 64
  -- Write out as 8 bytes with spaces between them, high byte first.
  printByte (((value >>> 56) &&& 0xff) % 256) ++ [' '] ++
  printByte (((value >>> 48) &&& 0xff) % 256) ++ [' '] ++
  printByte (((value >>> 40) &&& 0xff) % 256) ++ [' '] ++
  printByte (((value >>> 32) &&& 0xff) % 256) ++ [' '] ++
  printByte (((value >>> 24) &&& 0xff) % 256) ++ [' '] ++
  printByte (((value >>> 16) &&& 0xff) % 256) ++ [' '] ++
  printByte (((value >>> 8) &&& 0xff) % 256) ++ [' '] ++
  printByte ((value &&& 0xff) % 256) ++
  -- Write the unsigned and signed int value
  ([' ', ' '] ++ fmt_u 20 value ++ [' '] ++ fmt_d 20 (toInt64 value) ++ ['\n'])

/-! ## The program -/

def TU_S : String := "SmallCrush"
def TU_C : String := "Crush"
def TU_B : String := "BigCrush"
def T_RAW_32 : String := "raw32"
def T_RAW_64 : String := "raw64"

/-- The apostrophe of the usage messages. -/
def apostrophe : Char := Char.ofNat 39

/-- What the program takes from outside its own source: `strtoul(s, 0, 0)` of
the C library and the three batteries of TestU01, which drive the generator
they are handed and write their report. -/
structure Env where
  strtoul : String → Nat
  bbattery_SmallCrush : unif01_Gen → Proc → Res unif01_Gen
  bbattery_Crush : unif01_Gen → Proc → Res unif01_Gen
  bbattery_BigCrush : unif01_Gen → Proc → Res unif01_Gen

/-- The function `getCount`; the result is an `unsigned long` of 64 bits. -/
def getCount (env : Env) (argc : Nat) (argv : List String) : Nat :=
  if argc < 3 then
    -- 2^64 - 1 == Unlimited.
    2 ^ 64 - 1
  else
    env.strtoul (argv.getD 2 "") % 2 ^ 64

/-- The loop `while (count--) { printInt(nextInt(0, gen->state)); }` of `main`. -/
def raw32_loop (e : Endian) : Nat → StdinReader_state → Proc → Res StdinReader_state
  | 0, sta, p => .ret sta p
  | count + 1, sta, p =>
    match nextInt e sta p with
    | .ret (v, sta) p => raw32_loop e count sta (p.printf (printInt v))
    | .exit code p => .exit code p
    | .undefined => .undefined

/-- The loop `while (count--) { printLong(nextLong(gen->state)); }` of `main`. -/
def raw64_loop (e : Endian) : Nat → StdinReader_state → Proc → Res StdinReader_state
  | 0, sta, p => .ret sta p
  | count + 1, sta, p =>
    match nextLong e sta p with
    | .ret (v, sta) p => raw64_loop e count sta (p.printf (printLong v))
    | .exit code p => .exit code p
    | .undefined => .undefined

/-- Put the reader state a loop of `main` leaves behind back in the generator. -/
def withState (gen : unif01_Gen) : Res StdinReader_state → Res unif01_Gen
  | .ret sta p => .ret { gen with state := sta } p
  | .exit code p => .exit code p
  | .undefined => .undefined

/-- The function `main`; `argc` is the length of `argv`.  A `Res.ret` is the
`return 0` at its end, a `Res.exit` a call of `exit`. -/
def main (env : Env) (e : Endian) (argv : List String) (p : Proc) : Res Nat :=
  let argc := argv.length
  if argc < 2 then
    .exit 1 (p.printf ("[ERROR] Specify test suite: ".toList ++ [apostrophe] ++ TU_S.toList ++
      [apostrophe, ',', ' ', apostrophe] ++ TU_C.toList ++ [apostrophe] ++ " or ".toList ++
      [apostrophe] ++ TU_B.toList ++ [apostrophe, '\n']))
  else
    let (gen, p) := createStdinReader p
    let spec := argv.getD 1 ""
    let body : Res unif01_Gen :=
      if spec = TU_S then
        env.bbattery_SmallCrush gen p
      else if spec = TU_C then
        env.bbattery_Crush gen p
      else if spec = TU_B then
        env.bbattery_BigCrush gen p
      else if spec = T_RAW_32 then
        let count := getCount env argc argv
        -- Print to stdout until stdin closes or count is reached.
        withState gen (raw32_loop e count gen.state p)
      else if spec = T_RAW_64 then
        let count := getCount env argc argv
        -- Print to stdout until stdin closes or count is reached. Use dedicated 64-bit reader.
        withState gen (raw64_loop e count gen.state p)
      else
        .exit 1 (p.printf ("[ERROR] Unknown specification: ".toList ++ [apostrophe] ++
          spec.toList ++ [apostrophe, '\n']))
    -- deleteStdinReader(gen); return 0;
    match body with
    | .ret _ p => .ret 0 p
    | .exit code p => .exit code p
    | .undefined => .undefined

/-! ## Reader invariant -/

/-- The 32-bit reader `sta` of process `p` holds the block `blk` of its last
refill, and the words `rest` are still in the stream. -/
structure Holds32 (e : Endian) (sta : StdinReader_state) (p : Proc)
    (blk rest : List Nat) : Prop where
  last_read : p.nextInt_last_read = blk.length
  cap : blk.length ≤ BUFFER_LENGTH_32
  index : sta.index ≤ BUFFER_LENGTH_32
  buffer : ∃ tail, sta.buffer = encode e 4 blk ++ tail
  src : p.stdin.src = (encode e 4 rest).map Item.byte

/-- The words the 32-bit reader will return, in order, are exactly `ws`. -/
def Serves32 (e : Endian) (sta : StdinReader_state) (p : Proc) (ws : List Nat) : Prop :=
  ∃ blk rest, Holds32 e sta p blk rest ∧ blk.drop sta.index ++ rest = ws

/-- The 64-bit reader `sta` of process `p` holds the block `blk` of its last
refill, and the words `rest` are still in the stream; the cursor of a fresh
reader is `BUFFER_LENGTH_32`, whichever function reads it. -/
structure Holds64 (e : Endian) (sta : StdinReader_state) (p : Proc)
    (blk rest : List Nat) : Prop where
  last_read : p.nextLong_last_read = blk.length
  cap : blk.length ≤ BUFFER_LENGTH_64
  index : sta.index ≤ BUFFER_LENGTH_32
  buffer : ∃ tail, sta.buffer = encode e 8 blk ++ tail
  src : p.stdin.src = (encode e 8 rest).map Item.byte

/-- The words the 64-bit reader will return, in order, are exactly `ws`. -/
def Serves64 (e : Endian) (sta : StdinReader_state) (p : Proc) (ws : List Nat) : Prop :=
  ∃ blk rest, Holds64 e sta p blk rest ∧ blk.drop sta.index ++ rest = ws

/-! ## Observations -/

/-- The process at program start: nothing read, nothing written, both
`static` counters zero. -/
def Proc.start (src : List Item) (heap : List Byte) (errno : List Char) : Proc :=
  { stdin := { src := src, eof := false, err := false, binary := false, reads := 0 }
    stdout := []
    stderr := []
    errno := errno
    heap := heap
    nextInt_last_read := 0
    nextLong_last_read := 0 }

/-- The input stream that consists of the 32-bit words `ws`. -/
def stream32 (e : Endian) (ws : List Nat) : List Item :=
  (encode e 4 ws).map Item.byte

/-- The input stream that consists of the 64-bit words `ws`. -/
def stream64 (e : Endian) (ws : List Nat) : List Item :=
  (encode e 8 ws).map Item.byte

/-- Exit status of the process when the call is that of `main`, or the code
passed to `exit`. -/
def Res.status : Res Nat → Option Nat
  | .ret code _ => some code
  | .exit code _ => some code
  | .undefined => none

/-- Number of lines in a text: the number of newline characters. -/
def lineCount (text : List Char) : Nat :=
  text.count '\n'

/-- Value of a string of decimal digits. -/
def parseUnsigned (s : List Char) : Nat :=
  s.foldl (fun acc c => 10 * acc + (c.toNat - 48)) 0

/-- An environment for examples: `strtoul` reads a decimal numeral, and the
batteries return at once. -/
def Env.demo : Env :=
  { strtoul := fun s => parseUnsigned s.toList
    bbattery_SmallCrush := fun gen p => .ret gen p
    bbattery_Crush := fun gen p => .ret gen p
    bbattery_BigCrush := fun gen p => .ret gen p }

/-! ## Reading a printed line back -/

/-- The 8 binary digits of an octet, most significant bit first. -/
def binary8 (b : Nat) : List Char :=
  [7, 6, 5, 4, 3, 2, 1, 0].map (fun i => if b / 2 ^ i % 2 = 1 then '1' else '0')

/-- Value of a string of binary digits, most significant digit first. -/
def parseBinary (s : List Char) : Nat :=
  s.foldl (fun acc c => 2 * acc + (if c = '1' then 1 else 0)) 0

/-- Value of an unsigned decimal field: blanks, then decimal digits. -/
def readUnsigned (field : List Char) : Nat :=
  parseUnsigned (field.dropWhile (· == ' '))

/-- Value of a signed decimal field: blanks, then a minus sign or none, then
decimal digits. -/
def readSigned (field : List Char) : Int :=
  match field.dropWhile (· == ' ') with
  | '-' :: digits => -(parseUnsigned digits : Int)
  | digits => (parseUnsigned digits : Int)

/-! ## Lifetime of a reader -/

/-- States of the 32-bit reader over the life of a process started in `p0`:
the state `createStdinReader` produces at program start, and from then on
the state after every call of `nextInt` that returns and after every line
`main` prints in between. -/
inductive Reach32 (e : Endian) (p0 : Proc) : StdinReader_state → Proc → Prop where
  | fresh (h : p0.nextInt_last_read = 0) :
      Reach32 e p0 (createStdinReader p0).1.state (createStdinReader p0).2
  | call {sta sta' : StdinReader_state} {p p' : Proc} {v : Nat}
      (h : Reach32 e p0 sta p) (hc : nextInt e sta p = .ret (v, sta') p') :
      Reach32 e p0 sta' p'
  | print {sta : StdinReader_state} {p : Proc} (text : List Char)
      (h : Reach32 e p0 sta p) : Reach32 e p0 sta (p.printf text)

/-- States of the 64-bit reader (mode "raw64") over the life of a process
started in `p0`. -/
inductive Reach64 (e : Endian) (p0 : Proc) : StdinReader_state → Proc → Prop where
  | fresh (h : p0.nextLong_last_read = 0) :
      Reach64 e p0 (createStdinReader p0).1.state (createStdinReader p0).2
  | call {sta sta' : StdinReader_state} {p p' : Proc} {v : Nat}
      (h : Reach64 e p0 sta p) (hc : nextLong e sta p = .ret (v, sta') p') :
      Reach64 e p0 sta' p'
  | print {sta : StdinReader_state} {p : Proc} (text : List Char)
      (h : Reach64 e p0 sta p) : Reach64 e p0 sta (p.printf text)

/-! ## The program `testendianness.c` -/

/-- One pass of the loop `for (int i = 0; i < 4; i++)` of `testendianness.c`:
`mem` holds the 4 octets of `val` in address order, `out` what was written. -/
def testendianness_row (e : Endian) (acc : List Byte × List Char) (i : Nat) :
    List Byte × List Char :=
  -- buff[i] = -1;
  let mem := acc.1.set i 255
  let val := fromBytes e mem
  let out := acc.2 ++ ['['] ++ fmt_d 0 (i : Int) ++ "]    ".toList
  -- Print the network byte order (big endian).
  let out := out ++ ([0, 1, 2, 3].map (fun j => if i = j then "ff" else "00")).flatMap String.toList
  let out := out ++ "        ".toList
  -- Print the logical byte order starting at the most significant byte.
  let out := out ++ ([3, 2, 1, 0].map
    (fun j => if (val >>> (j * 8)) &&& 0xff ≠ 0 then "ff" else "00")).flatMap String.toList
  -- Print the value for reference.
  let out := out ++ "       ".toList ++ fmt_u 11 val ++ ['\n']
  -- buff[i] = 0;
  (mem.set i 0, out)

/-- The function `main` of `testendianness.c` on a host of byte order `e`: the
text it writes to stdout and the value it returns. -/
def testendianness_main (e : Endian) (argc : Nat) : List Char × Nat :=
  -- uint32_t val = 0x01; char *buff = (char *)&val;
  let mem := toBytes e 4 0x01
  let out := if mem.getD 0 0 ≠ 0 then "Little-endian\n".toList else "Big-endian\n".toList
  -- Demonstrate this.
  let out :=
    if argc > 1 then
      -- val = 0;
      let mem := toBytes e 4 0
      let out := out ++ "\n".toList ++
        "Test byte order using 4 bytes for an unsigned integer\n".toList ++
        "byte   network order   logical order   value\n".toList
      ([0, 1, 2, 3].foldl (testendianness_row e) (mem, out)).2
    else out
  (out, 0)
/-! ## Octet lemmas -/

theorem length_toBytesLE (k v : Nat) : (toBytesLE k v).length = k := by
  induction k generalizing v with
  | zero => rfl
  | succ k ih => simp [toBytesLE, ih]

theorem length_toBytes (e : Endian) (k v : Nat) : (toBytes e k v).length = k := by
  cases e <;> simp [toBytes, length_toBytesLE]

theorem fromBytesLE_toBytesLE (k v : Nat) : fromBytesLE (toBytesLE k v) = v % 256 ^ k := by
  induction k generalizing v with
  | zero => simp [toBytesLE, fromBytesLE, Nat.mod_one]
  | succ k ih =>
    simp only [toBytesLE, fromBytesLE, ih, Fin.ofNat, pow_succ]
    rw [Nat.mul_comm (256 ^ k) 256, Nat.mod_mul]

theorem fromBytes_toBytes (e : Endian) (k v : Nat) :
    fromBytes e (toBytes e k v) = v % 256 ^ k := by
  cases e <;> simp [fromBytes, toBytes, fromBytesLE_toBytesLE]

theorem length_encode (e : Endian) (k : Nat) (ws : List Nat) :
    (encode e k ws).length = k * ws.length := by
  induction ws with
  | nil => simp [encode]
  | cons w ws ih =>
    simp only [encode, List.flatMap_cons, List.length_append, length_toBytes,
      List.length_cons] at ih ⊢
    rw [ih]; ring

theorem encode_cons (e : Endian) (k w : Nat) (ws : List Nat) :
    encode e k (w :: ws) = toBytes e k w ++ encode e k ws := by
  simp [encode]

theorem encode_append (e : Endian) (k : Nat) (xs ys : List Nat) :
    encode e k (xs ++ ys) = encode e k xs ++ encode e k ys := by
  simp [encode]

theorem take_encode (e : Endian) (k n : Nat) (ws : List Nat) :
    (encode e k ws).take (k * n) = encode e k (ws.take n) := by
  induction ws generalizing n with
  | nil => simp [encode]
  | cons w ws ih =>
    cases n with
    | zero => simp [encode]
    | succ n =>
      rw [List.take_succ_cons, encode_cons, encode_cons, List.take_append_eq_append_take,
        length_toBytes, List.take_of_length_le (by rw [length_toBytes]; nlinarith)]
      congr 1
      have : k * (n + 1) - k = k * n := by rw [Nat.mul_succ]; omega
      rw [this, ih]

theorem drop_encode (e : Endian) (k n : Nat) (ws : List Nat) :
    (encode e k ws).drop (k * n) = encode e k (ws.drop n) := by
  induction ws generalizing n with
  | nil => simp [encode]
  | cons w ws ih =>
    cases n with
    | zero => simp [encode]
    | succ n =>
      rw [List.drop_succ_cons, encode_cons, List.drop_append_eq_append_drop,
        length_toBytes, List.drop_of_length_le (by rw [length_toBytes]; nlinarith)]
      have : k * (n + 1) - k = k * n := by rw [Nat.mul_succ]; omega
      rw [this, ih, List.nil_append]

theorem load_encode (e : Endian) (k : Nat) (ws : List Nat) (tail : List Byte) (i : Nat)
    (h : i < ws.length) :
    load e k (encode e k ws ++ tail) i = ws.getD i 0 % 256 ^ k := by
  unfold load
  have h1 : ws = ws.take i ++ (ws.getD i 0 :: ws.drop (i + 1)) := by
    rw [List.getD_eq_getElem _ _ h, ← List.drop_eq_getElem_cons h, List.take_append_drop]
  have h2 : (ws.take i).length = i := by simp; omega
  conv_lhs => rw [h1]
  rw [encode_append, encode_cons, List.append_assoc, List.drop_append_eq_append_drop,
    List.drop_of_length_le (by rw [length_encode, h2]), length_encode, h2, Nat.sub_self,
    List.drop_zero, List.nil_append, List.append_assoc, List.take_append_eq_append_take,
    length_toBytes, Nat.sub_self, List.take_zero, List.append_nil,
    List.take_of_length_le (by rw [length_toBytes]), fromBytes_toBytes]


/-! ## The stream -/

theorem gather_bytes (n : Nat) (bs : List Byte) :
    gather n (bs.map Item.byte) =
      ⟨bs.take n, (bs.drop n).map Item.byte, decide (bs.length < n), false⟩ := by
  induction n generalizing bs with
  | zero => simp [gather]
  | succ n ih =>
    cases bs with
    | nil => simp [gather]
    | cons b bs => simp [gather, ih]

theorem fread_encode (e : Endian) (k n : Nat) (ws : List Nat) (f : FILE) (hk : 0 < k)
    (h : f.src = (encode e k ws).map Item.byte) :
    fread k n f =
      { count := min n ws.length
        bytes := encode e k (ws.take n)
        file := { f with src := (encode e k (ws.drop n)).map Item.byte,
                         eof := f.eof || decide (ws.length < n),
                         reads := f.reads + 1 } } := by
  have hlt : decide (k * ws.length < k * n) = decide (ws.length < n) := by
    congr 1
    exact propext (Nat.mul_lt_mul_left hk)
  simp only [fread, h, gather_bytes, take_encode, drop_encode, length_encode, hlt,
    Bool.or_false, List.length_take, Nat.mul_div_cancel_left _ hk]


/-! ## One call of `nextInt` -/

theorem nextInt_in_block {e : Endian} {sta : StdinReader_state} {p : Proc}
    {blk rest : List Nat} (h : Holds32 e sta p blk rest) (hi : sta.index < blk.length) :
    nextInt e sta p =
      .ret (blk.getD sta.index 0 % 2 ^ 32, { sta with index := sta.index + 1 }) p := by
  obtain ⟨tail, hb⟩ := h.buffer
  have hcap := h.cap
  have hlast := h.last_read
  unfold BUFFER_LENGTH_32 at hcap
  have h1 : ¬ (sta.index ≥ p.nextInt_last_read) := by omega
  have h2 : sta.index < BUFFER_LENGTH_32 := by unfold BUFFER_LENGTH_32; omega
  have h3 : (sta.index + 1) % 2 ^ 32 = sta.index + 1 := Nat.mod_eq_of_lt (by omega)
  simp only [nextInt, h1, if_false, nextInt_fetch, h2, if_true, h3, hb,
    load_encode e 4 blk tail sta.index hi]
  norm_num

theorem nextInt_refill_empty {e : Endian} {sta : StdinReader_state} {p : Proc}
    {blk : List Nat} (h : Holds32 e sta p blk []) (hi : blk.length ≤ sta.index) :
    nextInt e sta p =
      .exit 0 { p with stdin := { p.stdin with src := [], eof := true,
                                               reads := p.stdin.reads + 1 },
                       nextInt_last_read := 0 } := by
  have hlast := h.last_read
  have h1 : sta.index ≥ p.nextInt_last_read := by omega
  have hf := fread_encode e 4 BUFFER_LENGTH_32 [] p.stdin (by norm_num) h.src
  simp only [nextInt, h1, if_true, hf]
  simp [BUFFER_LENGTH_32, feof, encode]

theorem nextInt_refill {e : Endian} {sta : StdinReader_state} {p : Proc}
    {blk rest : List Nat} (h : Holds32 e sta p blk rest) (hi : blk.length ≤ sta.index)
    (hr : rest ≠ []) :
    nextInt e sta p =
      .ret (rest.getD 0 0 % 2 ^ 32,
            { buffer := store (encode e 4 (rest.take BUFFER_LENGTH_32)) sta.buffer, index := 1 })
        { p with stdin := { p.stdin with
                              src := (encode e 4 (rest.drop BUFFER_LENGTH_32)).map Item.byte,
                              eof := p.stdin.eof || decide (rest.length < BUFFER_LENGTH_32),
                              reads := p.stdin.reads + 1 },
                 nextInt_last_read := min BUFFER_LENGTH_32 rest.length } := by
  have hlast := h.last_read
  have h1 : sta.index ≥ p.nextInt_last_read := by omega
  have hf := fread_encode e 4 BUFFER_LENGTH_32 rest p.stdin (by norm_num) h.src
  have hpos : 0 < rest.length := List.length_pos.mpr hr
  have h2 : ¬ (min BUFFER_LENGTH_32 rest.length ≠ BUFFER_LENGTH_32 ∧
      min BUFFER_LENGTH_32 rest.length = 0) := by
    unfold BUFFER_LENGTH_32; omega
  have h3 : (0 : Nat) < BUFFER_LENGTH_32 := by unfold BUFFER_LENGTH_32; norm_num
  have h4 : 0 < (rest.take BUFFER_LENGTH_32).length := by
    rw [List.length_take]; unfold BUFFER_LENGTH_32; omega
  have h5 : (rest.take BUFFER_LENGTH_32).getD 0 0 = rest.getD 0 0 := by
    cases rest with
    | nil => exact absurd rfl hr
    | cons w ws => simp [BUFFER_LENGTH_32]
  simp only [nextInt, h1, if_true, hf, h2, if_false, nextInt_fetch, h3, store,
    load_encode e 4 _ _ 0 h4, h5]
  norm_num

theorem holds32_refill (e : Endian) (sta : StdinReader_state) (p : Proc)
    (rest : List Nat) :
    Holds32 e
      { buffer := store (encode e 4 (rest.take BUFFER_LENGTH_32)) sta.buffer, index := 1 }
      { p with stdin := { p.stdin with
                            src := (encode e 4 (rest.drop BUFFER_LENGTH_32)).map Item.byte,
                            eof := p.stdin.eof || decide (rest.length < BUFFER_LENGTH_32),
                            reads := p.stdin.reads + 1 },
               nextInt_last_read := min BUFFER_LENGTH_32 rest.length }
      (rest.take BUFFER_LENGTH_32) (rest.drop BUFFER_LENGTH_32) where
  last_read := by simp
  cap := by simp
  index := by simp [BUFFER_LENGTH_32]
  buffer := ⟨_, rfl⟩
  src := rfl

theorem holds32_advance {e : Endian} {sta : StdinReader_state} {p : Proc}
    {blk rest : List Nat} (h : Holds32 e sta p blk rest) (hi : sta.index < blk.length) :
    Holds32 e { sta with index := sta.index + 1 } p blk rest where
  last_read := h.last_read
  cap := h.cap
  index := by have := h.cap; show sta.index + 1 ≤ BUFFER_LENGTH_32; omega
  buffer := h.buffer
  src := h.src

theorem serves32_fresh (e : Endian) (p : Proc) (ws : List Nat)
    (h0 : p.nextInt_last_read = 0)
    (hs : p.stdin.src = (encode e 4 ws).map Item.byte) :
    Serves32 e (createStdinReader p).1.state (createStdinReader p).2 ws := by
  refine ⟨[], ws, ⟨?_, ?_, ?_, ?_, ?_⟩, ?_⟩
  · simpa [createStdinReader] using h0
  · simp
  · simp [createStdinReader]
  · exact ⟨p.heap, by simp [createStdinReader, encode]⟩
  · simpa [createStdinReader, freopen_rb] using hs
  · simp

theorem nextInt_serves_cons {e : Endian} {sta : StdinReader_state} {p : Proc}
    {w : Nat} {ws : List Nat} (h : Serves32 e sta p (w :: ws)) (hw : w < 2 ^ 32) :
    ∃ sta' p', nextInt e sta p = .ret (w, sta') p' ∧ Serves32 e sta' p' ws ∧
      p'.stdout = p.stdout ∧ p'.stderr = p.stderr := by
  obtain ⟨blk, rest, hH, hEq⟩ := h
  by_cases hi : sta.index < blk.length
  · rw [List.drop_eq_getElem_cons hi, List.cons_append] at hEq
    obtain ⟨hw', hws⟩ := List.cons.inj hEq
    have hstep := nextInt_in_block hH hi
    rw [List.getD_eq_getElem _ _ hi, hw', Nat.mod_eq_of_lt hw] at hstep
    exact ⟨_, _, hstep, ⟨blk, rest, holds32_advance hH hi, hws⟩, rfl, rfl⟩
  · have hi' : blk.length ≤ sta.index := by omega
    rw [List.drop_of_length_le hi', List.nil_append] at hEq
    have hr : rest ≠ [] := by rw [hEq]; exact List.cons_ne_nil _ _
    have hstep := nextInt_refill hH hi' hr
    rw [hEq] at hstep
    simp only [List.getD_cons_zero, Nat.mod_eq_of_lt hw] at hstep
    refine ⟨_, _, hstep, ⟨_, _, holds32_refill e sta p (w :: ws), ?_⟩, rfl, rfl⟩
    show List.drop 1 (List.take BUFFER_LENGTH_32 (w :: ws)) ++
      List.drop BUFFER_LENGTH_32 (w :: ws) = ws
    simp [BUFFER_LENGTH_32]

theorem nextInt_serves_nil {e : Endian} {sta : StdinReader_state} {p : Proc}
    (h : Serves32 e sta p []) :
    ∃ p', nextInt e sta p = .exit 0 p' ∧ p'.stdout = p.stdout ∧ p'.stderr = p.stderr ∧
      p'.stdin.reads = p.stdin.reads + 1 := by
  obtain ⟨blk, rest, hH, hEq⟩ := h
  obtain ⟨hd, hr⟩ := List.append_eq_nil.mp hEq
  subst hr
  have hi : blk.length ≤ sta.index := List.drop_eq_nil_iff.mp hd
  exact ⟨_, nextInt_refill_empty hH hi, rfl, rfl, rfl⟩

/-! ## Successive calls of `nextInt` -/

theorem nextInt_calls_cons_of {e : Endian} {sta sta1 sta2 : StdinReader_state}
    {p p1 p2 : Proc} {n v : Nat} {vs : List Nat}
    (h1 : nextInt e sta p = .ret (v, sta1) p1)
    (h2 : nextInt_calls e n sta1 p1 = .ret (vs, sta2) p2) :
    nextInt_calls e (n + 1) sta p = .ret (v :: vs, sta2) p2 := by
  simp only [nextInt_calls, h1, h2]

theorem nextInt_calls_in_block {e : Endian} {p : Proc} {blk rest : List Nat} (n : Nat)
    (sta : StdinReader_state) (h : Holds32 e sta p blk rest)
    (hn : sta.index + n ≤ blk.length) (hw : ∀ w ∈ blk, w < 2 ^ 32) :
    nextInt_calls e n sta p =
      .ret ((blk.drop sta.index).take n, { sta with index := sta.index + n }) p := by
  induction n generalizing sta with
  | zero => simp [nextInt_calls]
  | succ n ih =>
    have hi : sta.index < blk.length := by omega
    have hmod : blk.getD sta.index 0 % 2 ^ 32 = blk[sta.index] := by
      rw [List.getD_eq_getElem _ _ hi]
      exact Nat.mod_eq_of_lt (hw _ (List.getElem_mem _))
    have ih' := ih { sta with index := sta.index + 1 } (holds32_advance h hi)
      (by show sta.index + 1 + n ≤ blk.length; omega)
    simp only [nextInt_calls, nextInt_in_block h hi, ih', hmod]
    rw [List.drop_eq_getElem_cons hi, List.take_succ_cons]
    congr 3
    omega

theorem nextInt_calls_serves {e : Endian} (n : Nat) (sta : StdinReader_state) (p : Proc)
    (ws : List Nat) (h : Serves32 e sta p ws) (hn : n ≤ ws.length)
    (hw : ∀ w ∈ ws, w < 2 ^ 32) :
    ∃ sta' p', nextInt_calls e n sta p = .ret (ws.take n, sta') p' ∧
      Serves32 e sta' p' (ws.drop n) ∧ p'.stdout = p.stdout ∧ p'.stderr = p.stderr := by
  induction n generalizing sta p ws with
  | zero => exact ⟨sta, p, rfl, h, rfl, rfl⟩
  | succ n ih =>
    cases ws with
    | nil => simp at hn
    | cons w ws =>
      obtain ⟨sta1, p1, h1, hS1, ho1, he1⟩ :=
        nextInt_serves_cons h (hw w (List.mem_cons_self _ _))
      obtain ⟨sta2, p2, h2, hS2, ho2, he2⟩ := ih sta1 p1 ws hS1
        (by simpa using hn) (fun x hx => hw x (List.mem_cons_of_mem _ hx))
      refine ⟨sta2, p2, ?_, hS2, ho2.trans ho1, he2.trans he1⟩
      simp only [nextInt_calls, h1, h2, List.take_succ_cons]

/-! ## Claims about the reader -/

/-- C1: for every N ≤ 2048 and every input stream of exactly N 32-bit words, N
successive calls of `nextInt` on the reader `createStdinReader` sets up return
exactly those words in stream order, out of a single bulk read (none when
N = 0), and the (N+1)-th call is made with the cursor at the fill count and
performs a new bulk read (which finds the stream empty, so the process exits
with code 0). -/
theorem nextInt_block_then_refill (e : Endian) (p : Proc) (ws : List Nat)
    (hN : ws.length ≤ BUFFER_LENGTH_32) (hw : ∀ w ∈ ws, w < 2 ^ 32)
    (h0 : p.nextInt_last_read = 0) (hs : p.stdin.src = stream32 e ws) :
    ∃ sta' p' p'',
      nextInt_calls e ws.length (createStdinReader p).1.state (createStdinReader p).2 =
        .ret (ws, sta') p' ∧
      p'.stdin.reads = p.stdin.reads + min 1 ws.length ∧
      sta'.index ≥ p'.nextInt_last_read ∧
      nextInt e sta' p' = .exit 0 p'' ∧
      p''.stdin.reads = p'.stdin.reads + 1 := by
  have hfresh := serves32_fresh e p ws h0 hs
  cases ws with
  | nil =>
    obtain ⟨p'', h1, -, -, h4⟩ := nextInt_serves_nil hfresh
    refine ⟨_, _, p'', rfl, ?_, ?_, h1, h4⟩
    · simp [createStdinReader, freopen_rb]
    · simp [createStdinReader, h0]
  | cons w ws =>
    have hH0 : Holds32 e (createStdinReader p).1.state (createStdinReader p).2 [] (w :: ws) :=
      ⟨by simpa [createStdinReader] using h0, by simp, by simp [createStdinReader],
        ⟨p.heap, by simp [createStdinReader, encode]⟩,
        by simpa [createStdinReader, freopen_rb] using hs⟩
    have hstep := nextInt_refill hH0 (Nat.zero_le _) (List.cons_ne_nil _ _)
    have hH1 := holds32_refill e (createStdinReader p).1.state (createStdinReader p).2 (w :: ws)
    have htake : List.take BUFFER_LENGTH_32 (w :: ws) = w :: ws := List.take_of_length_le hN
    have hdrop : List.drop BUFFER_LENGTH_32 (w :: ws) = [] := List.drop_of_length_le hN
    have hmin : min BUFFER_LENGTH_32 (w :: ws).length = ws.length + 1 := Nat.min_eq_right hN
    rw [htake, hdrop, hmin] at hH1 hstep
    rw [List.getD_cons_zero, Nat.mod_eq_of_lt (hw w (List.mem_cons_self _ _))] at hstep
    have hrun := nextInt_calls_in_block ws.length _ hH1 (by simp [Nat.add_comm]) hw
    dsimp only at hrun
    rw [List.drop_one, List.tail_cons, List.take_length] at hrun
    have hH2 := hH1
    replace hH2 : Holds32 e
        { buffer := store (encode e 4 (w :: ws)) (createStdinReader p).1.state.buffer,
          index := 1 + ws.length } _ (w :: ws) [] :=
      ⟨hH1.last_read, hH1.cap, by simpa [Nat.add_comm] using hN, hH1.buffer, hH1.src⟩
    have hlast := nextInt_refill_empty hH2 (by simp [Nat.add_comm])
    refine ⟨_, _, _, nextInt_calls_cons_of hstep hrun, ?_, ?_, hlast, rfl⟩
    · simp [createStdinReader, freopen_rb]
    · simp [Nat.add_comm]

/-- Witness of C1: three words on a little-endian host. -/
theorem nextInt_block_then_refill_witness :
    ([1, 2, 3] : List Nat).length ≤ BUFFER_LENGTH_32 ∧
    ∃ sta' p' p'',
      nextInt_calls .little 3
          (createStdinReader (Proc.start (stream32 .little [1, 2, 3]) [] [])).1.state
          (createStdinReader (Proc.start (stream32 .little [1, 2, 3]) [] [])).2 =
        .ret ([1, 2, 3], sta') p' ∧
      p'.stdin.reads = (Proc.start (stream32 .little [1, 2, 3]) [] []).stdin.reads + 1 ∧
      sta'.index ≥ p'.nextInt_last_read ∧
      nextInt .little sta' p' = .exit 0 p'' ∧
      p''.stdin.reads = p'.stdin.reads + 1 :=
  ⟨by decide,
   nextInt_block_then_refill .little (Proc.start (stream32 .little [1, 2, 3]) [] []) [1, 2, 3]
     (by decide) (by decide) rfl rfl⟩

/-- C2: for every finite input stream of L whole 32-bit words, whatever L is
relative to the capacity 2048, the first L calls of `nextInt` on a fresh
reader all return, their values are the L words in stream order, and the
(L+1)-th call ends the process with `exit(0)`. -/
theorem nextInt_whole_stream_then_exit (e : Endian) (p : Proc) (ws : List Nat)
    (hw : ∀ w ∈ ws, w < 2 ^ 32)
    (h0 : p.nextInt_last_read = 0) (hs : p.stdin.src = stream32 e ws) :
    ∃ sta' p' p'',
      nextInt_calls e ws.length (createStdinReader p).1.state (createStdinReader p).2 =
        .ret (ws, sta') p' ∧
      nextInt e sta' p' = .exit 0 p'' := by
  obtain ⟨sta', p', h1, hS, -, -⟩ :=
    nextInt_calls_serves ws.length _ _ ws (serves32_fresh e p ws h0 hs) (le_refl _) hw
  rw [List.take_length] at h1
  rw [List.drop_length] at hS
  obtain ⟨p'', h2, -⟩ := nextInt_serves_nil hS
  exact ⟨sta', p', p'', h1, h2⟩

/-- Witness of C2: 2049 words, one more than the capacity, so that the last
block holds a single word. -/
theorem nextInt_whole_stream_then_exit_witness :
    (∀ w ∈ List.replicate 2049 7, w < 2 ^ 32) ∧
    ∃ sta' p' p'',
      nextInt_calls .big (List.replicate 2049 7).length
          (createStdinReader (Proc.start (stream32 .big (List.replicate 2049 7)) [] [])).1.state
          (createStdinReader (Proc.start (stream32 .big (List.replicate 2049 7)) [] [])).2 =
        .ret (List.replicate 2049 7, sta') p' ∧
      nextInt .big sta' p' = .exit 0 p'' :=
  ⟨fun w hw => by rw [List.eq_of_mem_replicate hw]; norm_num,
   nextInt_whole_stream_then_exit .big
     (Proc.start (stream32 .big (List.replicate 2049 7)) [] []) (List.replicate 2049 7)
     (fun w hw => by rw [List.eq_of_mem_replicate hw]; norm_num) rfl rfl⟩

theorem nextInt_empty_src (e : Endian) (sta : StdinReader_state) (p : Proc)
    (hs : p.stdin.src = []) (h : sta.index ≥ p.nextInt_last_read) :
    nextInt e sta p =
      .exit 0 { p with stdin := { p.stdin with src := [], eof := true,
                                               reads := p.stdin.reads + 1 },
                       nextInt_last_read := 0 } := by
  simp only [nextInt, h, if_true, fread, hs]
  simp [BUFFER_LENGTH_32, gather, feof]

theorem nextLong_empty_src (e : Endian) (sta : StdinReader_state) (p : Proc)
    (hs : p.stdin.src = []) (h : sta.index ≥ p.nextLong_last_read) :
    nextLong e sta p =
      .exit 0 { p with stdin := { p.stdin with src := [], eof := true,
                                               reads := p.stdin.reads + 1 },
                       nextLong_last_read := 0 } := by
  simp only [nextLong, h, if_true, fread, hs]
  simp [BUFFER_LENGTH_64, BUFFER_LENGTH_32, gather, feof]

/-- C3: when the input stream is at its end with nothing left in it, a call
of `nextInt` or of `nextLong` that needs a refill (cursor at or past the last
fill count) returns no value: it ends the process with `exit(0)`, and has
written nothing to standard output or standard error.  The first call on a
fresh reader at program start is such a call. -/
theorem next_at_end_of_stream_exits_zero (e : Endian) (sta32 sta64 : StdinReader_state)
    (p : Proc) (heap : List Byte) (errno : List Char)
    (hs : p.stdin.src = [])
    (h32 : sta32.index ≥ p.nextInt_last_read) (h64 : sta64.index ≥ p.nextLong_last_read) :
    (∃ p', nextInt e sta32 p = .exit 0 p' ∧ p'.stdout = p.stdout ∧ p'.stderr = p.stderr) ∧
    (∃ p', nextLong e sta64 p = .exit 0 p' ∧ p'.stdout = p.stdout ∧ p'.stderr = p.stderr) ∧
    (∃ p', nextInt e (createStdinReader (Proc.start [] heap errno)).1.state
        (createStdinReader (Proc.start [] heap errno)).2 = .exit 0 p' ∧
      p'.stdout = [] ∧ p'.stderr = []) ∧
    (∃ p', nextLong e (createStdinReader (Proc.start [] heap errno)).1.state
        (createStdinReader (Proc.start [] heap errno)).2 = .exit 0 p' ∧
      p'.stdout = [] ∧ p'.stderr = []) := by
  exact ⟨⟨_, nextInt_empty_src e sta32 p hs h32, rfl, rfl⟩,
    ⟨_, nextLong_empty_src e sta64 p hs h64, rfl, rfl⟩,
    ⟨_, nextInt_empty_src e _ _ rfl (Nat.zero_le _), rfl, rfl⟩,
    ⟨_, nextLong_empty_src e _ _ rfl (Nat.zero_le _), rfl, rfl⟩⟩

/-- Witness of C3: a reader with its cursor past the fill count, and a fresh
reader, on an empty stream. -/
theorem next_at_end_of_stream_exits_zero_witness :
    ((Proc.start [] [] []).stdin.src = [] ∧
      (⟨[], 3⟩ : StdinReader_state).index ≥ (Proc.start [] [] []).nextInt_last_read ∧
      (⟨[], 3⟩ : StdinReader_state).index ≥ (Proc.start [] [] []).nextLong_last_read) ∧
    (∃ p', nextInt .little ⟨[], 3⟩ (Proc.start [] [] []) = .exit 0 p' ∧
      p'.stdout = (Proc.start [] [] []).stdout ∧ p'.stderr = (Proc.start [] [] []).stderr) ∧
    (∃ p', nextLong .little ⟨[], 3⟩ (Proc.start [] [] []) = .exit 0 p' ∧
      p'.stdout = (Proc.start [] [] []).stdout ∧ p'.stderr = (Proc.start [] [] []).stderr) ∧
    (∃ p', nextInt .little (createStdinReader (Proc.start [] [] [])).1.state
        (createStdinReader (Proc.start [] [] [])).2 = .exit 0 p' ∧
      p'.stdout = [] ∧ p'.stderr = []) ∧
    (∃ p', nextLong .little (createStdinReader (Proc.start [] [] [])).1.state
        (createStdinReader (Proc.start [] [] [])).2 = .exit 0 p' ∧
      p'.stdout = [] ∧ p'.stderr = []) :=
  ⟨⟨rfl, by decide, by decide⟩,
   next_at_end_of_stream_exits_zero .little ⟨[], 3⟩ ⟨[], 3⟩ (Proc.start [] [] []) [] []
     rfl (by decide) (by decide)⟩

/-- C4, as stated, fails: on a little-endian host let the stream deliver the
word 7, then a failed read, then its end.  The first call of `nextInt` returns
7 and leaves the error indicator set; the second call needs a refill, its bulk
read yields zero words while `ferror` holds, and the process ends with
`exit(0)` and nothing on standard error. -/
theorem nextInt_zero_words_error_set_exit_zero :
    ∃ sta' p' p'',
      nextInt .little
          (createStdinReader (Proc.start (stream32 .little [7] ++ [Item.fault]) [] [])).1.state
          (createStdinReader (Proc.start (stream32 .little [7] ++ [Item.fault]) [] [])).2 =
        .ret (7, sta') p' ∧
      sta'.index ≥ p'.nextInt_last_read ∧
      (fread 4 BUFFER_LENGTH_32 p'.stdin).count = 0 ∧
      ferror (fread 4 BUFFER_LENGTH_32 p'.stdin).file = true ∧
      nextInt .little sta' p' = .exit 0 p'' ∧
      p''.stderr = [] ∧ p''.stdout = [] := by
  refine ⟨_, _, _, rfl, ?_, ?_, ?_, rfl, ?_, ?_⟩ <;> decide

/-- C4, amended: when a call of `nextInt` or of `nextLong` needs a refill, its
bulk read yields zero words and the error indicator of the stream is set,
the outcome depends on the end-of-file indicator alone.  When it is not set,
the process ends with `exit(1)` after `perror` has written the message and the
error description to standard error; when it is set as well, the process ends
with `exit(0)` and nothing is written to standard output or standard error.
The two functions are taken on processes of their own. -/
theorem next_read_error_exits_one (e : Endian) (sta32 sta64 : StdinReader_state)
    (p32 p64 : Proc)
    (h32 : sta32.index ≥ p32.nextInt_last_read) (h64 : sta64.index ≥ p64.nextLong_last_read)
    (hz32 : (fread 4 BUFFER_LENGTH_32 p32.stdin).count = 0)
    (hz64 : (fread 8 BUFFER_LENGTH_64 p64.stdin).count = 0)
    (herr32 : ferror (fread 4 BUFFER_LENGTH_32 p32.stdin).file = true)
    (herr64 : ferror (fread 8 BUFFER_LENGTH_64 p64.stdin).file = true) :
    nextInt e sta32 p32 =
      (if feof (fread 4 BUFFER_LENGTH_32 p32.stdin).file then
        .exit 0 { p32 with stdin := (fread 4 BUFFER_LENGTH_32 p32.stdin).file,
                           nextInt_last_read := 0 }
      else
        .exit 1 { p32 with stdin := (fread 4 BUFFER_LENGTH_32 p32.stdin).file,
                           nextInt_last_read := 0,
                           stderr := p32.stderr ++ "[ERROR] Failed to read stdin: ".toList ++
                             p32.errno ++ ['\n'] }) ∧
    nextLong e sta64 p64 =
      (if feof (fread 8 BUFFER_LENGTH_64 p64.stdin).file then
        .exit 0 { p64 with stdin := (fread 8 BUFFER_LENGTH_64 p64.stdin).file,
                           nextLong_last_read := 0 }
      else
        .exit 1 { p64 with stdin := (fread 8 BUFFER_LENGTH_64 p64.stdin).file,
                           nextLong_last_read := 0,
                           stderr := p64.stderr ++ "[ERROR] Failed to read stdin: ".toList ++
                             p64.errno ++ ['\n'] }) := by
  constructor
  · simp only [nextInt, h32, if_true, hz32, herr32]
    split_ifs <;> simp_all [BUFFER_LENGTH_32, Proc.perror]
  · simp only [nextLong, h64, if_true, hz64, herr64]
    split_ifs <;> simp_all [BUFFER_LENGTH_64, BUFFER_LENGTH_32, Proc.perror]

/-- Witness of C4 (amended): for `nextInt` the first read of the stream fails
at once; for `nextLong` it fails after 4 octets, short of one 64-bit word.
Neither read meets the end of the file, and both calls end with `exit(1)`
after the report of `perror`. -/
theorem next_read_error_exits_one_witness :
    ((createStdinReader (Proc.start [Item.fault] [] [])).1.state.index ≥
        (createStdinReader (Proc.start [Item.fault] [] [])).2.nextInt_last_read ∧
      (fread 4 BUFFER_LENGTH_32 (createStdinReader (Proc.start [Item.fault] [] [])).2.stdin).count
        = 0 ∧
      ferror (fread 4 BUFFER_LENGTH_32
        (createStdinReader (Proc.start [Item.fault] [] [])).2.stdin).file = true ∧
      (createStdinReader
          (Proc.start (stream32 .big [7] ++ [Item.fault]) [] [])).1.state.index ≥
        (createStdinReader
          (Proc.start (stream32 .big [7] ++ [Item.fault]) [] [])).2.nextLong_last_read ∧
      (fread 8 BUFFER_LENGTH_64 (createStdinReader
          (Proc.start (stream32 .big [7] ++ [Item.fault]) [] [])).2.stdin).count = 0 ∧
      ferror (fread 8 BUFFER_LENGTH_64 (createStdinReader
          (Proc.start (stream32 .big [7] ++ [Item.fault]) [] [])).2.stdin).file = true) ∧
    nextInt .big (createStdinReader (Proc.start [Item.fault] [] [])).1.state
        (createStdinReader (Proc.start [Item.fault] [] [])).2 =
      .exit 1 { (createStdinReader (Proc.start [Item.fault] [] [])).2 with
                  stdin := (fread 4 BUFFER_LENGTH_32
                    (createStdinReader (Proc.start [Item.fault] [] [])).2.stdin).file,
                  nextInt_last_read := 0,
                  stderr := "[ERROR] Failed to read stdin: \n".toList } ∧
    nextLong .big
        (createStdinReader (Proc.start (stream32 .big [7] ++ [Item.fault]) [] [])).1.state
        (createStdinReader (Proc.start (stream32 .big [7] ++ [Item.fault]) [] [])).2 =
      .exit 1 { (createStdinReader (Proc.start (stream32 .big [7] ++ [Item.fault]) [] [])).2 with
                  stdin := (fread 8 BUFFER_LENGTH_64 (createStdinReader
                    (Proc.start (stream32 .big [7] ++ [Item.fault]) [] [])).2.stdin).file,
                  nextLong_last_read := 0,
                  stderr := "[ERROR] Failed to read stdin: \n".toList } :=
  ⟨⟨by decide, by decide, by decide, by decide, by decide, by decide⟩,
   next_read_error_exits_one .big
     (createStdinReader (Proc.start [Item.fault] [] [])).1.state
     (createStdinReader (Proc.start (stream32 .big [7] ++ [Item.fault]) [] [])).1.state
     (createStdinReader (Proc.start [Item.fault] [] [])).2
     (createStdinReader (Proc.start (stream32 .big [7] ++ [Item.fault]) [] [])).2
     (by decide) (by decide) (by decide) (by decide) (by decide) (by decide)⟩

/-! ## One call of `nextLong` -/

theorem nextLong_in_block {e : Endian} {sta : StdinReader_state} {p : Proc}
    {blk rest : List Nat} (h : Holds64 e sta p blk rest) (hi : sta.index < blk.length) :
    nextLong e sta p =
      .ret (blk.getD sta.index 0 % 2 ^ 64, { sta with index := sta.index + 1 }) p := by
  obtain ⟨tail, hb⟩ := h.buffer
  have hcap := h.cap
  have hlast := h.last_read
  unfold BUFFER_LENGTH_64 BUFFER_LENGTH_32 at hcap
  have h1 : ¬ (sta.index ≥ p.nextLong_last_read) := by omega
  have h2 : sta.index < BUFFER_LENGTH_64 := by unfold BUFFER_LENGTH_64 BUFFER_LENGTH_32; omega
  have h3 : (sta.index + 1) % 2 ^ 32 = sta.index + 1 := Nat.mod_eq_of_lt (by omega)
  simp only [nextLong, h1, if_false, nextLong_fetch, h2, if_true, h3, hb,
    load_encode e 8 blk tail sta.index hi]
  norm_num

theorem nextLong_refill_empty {e : Endian} {sta : StdinReader_state} {p : Proc}
    {blk : List Nat} (h : Holds64 e sta p blk []) (hi : blk.length ≤ sta.index) :
    nextLong e sta p =
      .exit 0 { p with stdin := { p.stdin with src := [], eof := true,
                                               reads := p.stdin.reads + 1 },
                       nextLong_last_read := 0 } := by
  have hlast := h.last_read
  have h1 : sta.index ≥ p.nextLong_last_read := by omega
  have hf := fread_encode e 8 BUFFER_LENGTH_64 [] p.stdin (by norm_num) h.src
  simp only [nextLong, h1, if_true, hf]
  simp [BUFFER_LENGTH_64, BUFFER_LENGTH_32, feof, encode]

theorem nextLong_refill {e : Endian} {sta : StdinReader_state} {p : Proc}
    {blk rest : List Nat} (h : Holds64 e sta p blk rest) (hi : blk.length ≤ sta.index)
    (hr : rest ≠ []) :
    nextLong e sta p =
      .ret (rest.getD 0 0 % 2 ^ 64,
            { buffer := store (encode e 8 (rest.take BUFFER_LENGTH_64)) sta.buffer, index := 1 })
        { p with stdin := { p.stdin with
                              src := (encode e 8 (rest.drop BUFFER_LENGTH_64)).map Item.byte,
                              eof := p.stdin.eof || decide (rest.length < BUFFER_LENGTH_64),
                              reads := p.stdin.reads + 1 },
                 nextLong_last_read := min BUFFER_LENGTH_64 rest.length } := by
  have hlast := h.last_read
  have h1 : sta.index ≥ p.nextLong_last_read := by omega
  have hf := fread_encode e 8 BUFFER_LENGTH_64 rest p.stdin (by norm_num) h.src
  have hpos : 0 < rest.length := List.length_pos.mpr hr
  have h2 : ¬ (min BUFFER_LENGTH_64 rest.length ≠ BUFFER_LENGTH_64 ∧
      min BUFFER_LENGTH_64 rest.length = 0) := by
    unfold BUFFER_LENGTH_64 BUFFER_LENGTH_32; omega
  have h3 : (0 : Nat) < BUFFER_LENGTH_64 := by unfold BUFFER_LENGTH_64 BUFFER_LENGTH_32; norm_num
  have h4 : 0 < (rest.take BUFFER_LENGTH_64).length := by
    rw [List.length_take]; unfold BUFFER_LENGTH_64 BUFFER_LENGTH_32; omega
  have h5 : (rest.take BUFFER_LENGTH_64).getD 0 0 = rest.getD 0 0 := by
    cases rest with
    | nil => exact absurd rfl hr
    | cons w ws => simp [BUFFER_LENGTH_64, BUFFER_LENGTH_32]
  simp only [nextLong, h1, if_true, hf, h2, if_false, nextLong_fetch, h3, store,
    load_encode e 8 _ _ 0 h4, h5]
  norm_num

theorem holds64_refill (e : Endian) (sta : StdinReader_state) (p : Proc)
    (rest : List Nat) :
    Holds64 e
      { buffer := store (encode e 8 (rest.take BUFFER_LENGTH_64)) sta.buffer, index := 1 }
      { p with stdin := { p.stdin with
                            src := (encode e 8 (rest.drop BUFFER_LENGTH_64)).map Item.byte,
                            eof := p.stdin.eof || decide (rest.length < BUFFER_LENGTH_64),
                            reads := p.stdin.reads + 1 },
               nextLong_last_read := min BUFFER_LENGTH_64 rest.length }
      (rest.take BUFFER_LENGTH_64) (rest.drop BUFFER_LENGTH_64) where
  last_read := by simp
  cap := by simp
  index := by simp [BUFFER_LENGTH_64, BUFFER_LENGTH_32]
  buffer := ⟨_, rfl⟩
  src := rfl

theorem holds64_advance {e : Endian} {sta : StdinReader_state} {p : Proc}
    {blk rest : List Nat} (h : Holds64 e sta p blk rest) (hi : sta.index < blk.length) :
    Holds64 e { sta with index := sta.index + 1 } p blk rest where
  last_read := h.last_read
  cap := h.cap
  index := by
    have := h.cap
    show sta.index + 1 ≤ BUFFER_LENGTH_32
    unfold BUFFER_LENGTH_64 BUFFER_LENGTH_32 at *
    omega
  buffer := h.buffer
  src := h.src

theorem serves64_fresh (e : Endian) (p : Proc) (ws : List Nat)
    (h0 : p.nextLong_last_read = 0)
    (hs : p.stdin.src = (encode e 8 ws).map Item.byte) :
    Serves64 e (createStdinReader p).1.state (createStdinReader p).2 ws := by
  refine ⟨[], ws, ⟨?_, ?_, ?_, ?_, ?_⟩, ?_⟩
  · simpa [createStdinReader] using h0
  · simp
  · simp [createStdinReader]
  · exact ⟨p.heap, by simp [createStdinReader, encode]⟩
  · simpa [createStdinReader, freopen_rb] using hs
  · simp

theorem nextLong_serves_cons {e : Endian} {sta : StdinReader_state} {p : Proc}
    {w : Nat} {ws : List Nat} (h : Serves64 e sta p (w :: ws)) (hw : w < 2 ^ 64) :
    ∃ sta' p', nextLong e sta p = .ret (w, sta') p' ∧ Serves64 e sta' p' ws ∧
      p'.stdout = p.stdout ∧ p'.stderr = p.stderr := by
  obtain ⟨blk, rest, hH, hEq⟩ := h
  by_cases hi : sta.index < blk.length
  · rw [List.drop_eq_getElem_cons hi, List.cons_append] at hEq
    obtain ⟨hw', hws⟩ := List.cons.inj hEq
    have hstep := nextLong_in_block hH hi
    rw [List.getD_eq_getElem _ _ hi, hw', Nat.mod_eq_of_lt hw] at hstep
    exact ⟨_, _, hstep, ⟨blk, rest, holds64_advance hH hi, hws⟩, rfl, rfl⟩
  · have hi' : blk.length ≤ sta.index := by omega
    rw [List.drop_of_length_le hi', List.nil_append] at hEq
    have hr : rest ≠ [] := by rw [hEq]; exact List.cons_ne_nil _ _
    have hstep := nextLong_refill hH hi' hr
    rw [hEq] at hstep
    simp only [List.getD_cons_zero, Nat.mod_eq_of_lt hw] at hstep
    refine ⟨_, _, hstep, ⟨_, _, holds64_refill e sta p (w :: ws), ?_⟩, rfl, rfl⟩
    show List.drop 1 (List.take BUFFER_LENGTH_64 (w :: ws)) ++
      List.drop BUFFER_LENGTH_64 (w :: ws) = ws
    simp [BUFFER_LENGTH_64, BUFFER_LENGTH_32]

theorem nextLong_serves_nil {e : Endian} {sta : StdinReader_state} {p : Proc}
    (h : Serves64 e sta p []) :
    ∃ p', nextLong e sta p = .exit 0 p' ∧ p'.stdout = p.stdout ∧ p'.stderr = p.stderr ∧
      p'.stdin.reads = p.stdin.reads + 1 := by
  obtain ⟨blk, rest, hH, hEq⟩ := h
  obtain ⟨hd, hr⟩ := List.append_eq_nil.mp hEq
  subst hr
  have hi : blk.length ≤ sta.index := List.drop_eq_nil_iff.mp hd
  exact ⟨_, nextLong_refill_empty hH hi, rfl, rfl, rfl⟩


/-! ## The loops of `main` -/

theorem serves32_printf {e : Endian} {sta : StdinReader_state} {p : Proc} {ws : List Nat}
    (h : Serves32 e sta p ws) (text : List Char) : Serves32 e sta (p.printf text) ws := by
  obtain ⟨blk, rest, hH, hEq⟩ := h
  exact ⟨blk, rest, ⟨hH.last_read, hH.cap, hH.index, hH.buffer, hH.src⟩, hEq⟩

theorem serves64_printf {e : Endian} {sta : StdinReader_state} {p : Proc} {ws : List Nat}
    (h : Serves64 e sta p ws) (text : List Char) : Serves64 e sta (p.printf text) ws := by
  obtain ⟨blk, rest, hH, hEq⟩ := h
  exact ⟨blk, rest, ⟨hH.last_read, hH.cap, hH.index, hH.buffer, hH.src⟩, hEq⟩

theorem raw32_loop_serves (e : Endian) (count : Nat) (sta : StdinReader_state) (p : Proc)
    (ws : List Nat) (h : Serves32 e sta p ws) (hw : ∀ w ∈ ws, w < 2 ^ 32) :
    ∃ sta' p',
      raw32_loop e count sta p = (if ws.length < count then .exit 0 p' else .ret sta' p') ∧
      p'.stdout = p.stdout ++ (ws.take count).flatMap printInt ∧ p'.stderr = p.stderr := by
  induction count generalizing sta p ws with
  | zero => exact ⟨sta, p, by simp [raw32_loop], by simp, rfl⟩
  | succ count ih =>
    cases ws with
    | nil =>
      obtain ⟨p', h1, ho, he, -⟩ := nextInt_serves_nil h
      exact ⟨sta, p', by simp [raw32_loop, h1], by simp [ho], he⟩
    | cons w ws =>
      obtain ⟨sta1, p1, h1, hS1, ho1, he1⟩ :=
        nextInt_serves_cons h (hw w (List.mem_cons_self _ _))
      obtain ⟨sta2, p2, h2, ho2, he2⟩ := ih sta1 (p1.printf (printInt w)) ws
        (serves32_printf hS1 _) (fun x hx => hw x (List.mem_cons_of_mem _ hx))
      refine ⟨sta2, p2, ?_, ?_, ?_⟩
      · simp only [raw32_loop, h1, h2, List.length_cons, Nat.add_lt_add_iff_right]
      · simp [ho2, Proc.printf, ho1]
      · simp [he2, Proc.printf, he1]

theorem raw64_loop_serves (e : Endian) (count : Nat) (sta : StdinReader_state) (p : Proc)
    (ws : List Nat) (h : Serves64 e sta p ws) (hw : ∀ w ∈ ws, w < 2 ^ 64) :
    ∃ sta' p',
      raw64_loop e count sta p = (if ws.length < count then .exit 0 p' else .ret sta' p') ∧
      p'.stdout = p.stdout ++ (ws.take count).flatMap printLong ∧ p'.stderr = p.stderr := by
  induction count generalizing sta p ws with
  | zero => exact ⟨sta, p, by simp [raw64_loop], by simp, rfl⟩
  | succ count ih =>
    cases ws with
    | nil =>
      obtain ⟨p', h1, ho, he, -⟩ := nextLong_serves_nil h
      exact ⟨sta, p', by simp [raw64_loop, h1], by simp [ho], he⟩
    | cons w ws =>
      obtain ⟨sta1, p1, h1, hS1, ho1, he1⟩ :=
        nextLong_serves_cons h (hw w (List.mem_cons_self _ _))
      obtain ⟨sta2, p2, h2, ho2, he2⟩ := ih sta1 (p1.printf (printLong w)) ws
        (serves64_printf hS1 _) (fun x hx => hw x (List.mem_cons_of_mem _ hx))
      refine ⟨sta2, p2, ?_, ?_, ?_⟩
      · simp only [raw64_loop, h1, h2, List.length_cons, Nat.add_lt_add_iff_right]
      · simp [ho2, Proc.printf, ho1]
      · simp [he2, Proc.printf, he1]

theorem main_raw32 (env : Env) (e : Endian) (argv : List String) (p : Proc) (ws : List Nat)
    (h2 : 2 ≤ argv.length) (hspec : argv.getD 1 "" = T_RAW_32)
    (hw : ∀ w ∈ ws, w < 2 ^ 32)
    (h0 : p.nextInt_last_read = 0) (hs : p.stdin.src = stream32 e ws) :
    ∃ p',
      main env e argv p =
        (if ws.length < getCount env argv.length argv then .exit 0 p' else .ret 0 p') ∧
      p'.stdout = p.stdout ++ (ws.take (getCount env argv.length argv)).flatMap printInt ∧
      p'.stderr = p.stderr := by
  obtain ⟨sta', p', h1, ho, he⟩ := raw32_loop_serves e (getCount env argv.length argv) _ _ ws
    (serves32_fresh e p ws h0 hs) hw
  refine ⟨p', ?_, ?_, ?_⟩
  · have hlt : ¬ argv.length < 2 := by omega
    simp only [main, hlt, if_false, hspec, h1]
    simp only [T_RAW_32, TU_S, TU_C, TU_B]
    split_ifs <;> simp_all [withState]
  · simpa [createStdinReader] using ho
  · simpa [createStdinReader] using he

theorem main_raw64 (env : Env) (e : Endian) (argv : List String) (p : Proc) (ws : List Nat)
    (h2 : 2 ≤ argv.length) (hspec : argv.getD 1 "" = T_RAW_64)
    (hw : ∀ w ∈ ws, w < 2 ^ 64)
    (h0 : p.nextLong_last_read = 0) (hs : p.stdin.src = stream64 e ws) :
    ∃ p',
      main env e argv p =
        (if ws.length < getCount env argv.length argv then .exit 0 p' else .ret 0 p') ∧
      p'.stdout = p.stdout ++ (ws.take (getCount env argv.length argv)).flatMap printLong ∧
      p'.stderr = p.stderr := by
  obtain ⟨sta', p', h1, ho, he⟩ := raw64_loop_serves e (getCount env argv.length argv) _ _ ws
    (serves64_fresh e p ws h0 hs) hw
  refine ⟨p', ?_, ?_, ?_⟩
  · have hlt : ¬ argv.length < 2 := by omega
    simp only [main, hlt, if_false, hspec, h1]
    simp only [T_RAW_64, T_RAW_32, TU_S, TU_C, TU_B]
    split_ifs <;> simp_all [withState]
  · simpa [createStdinReader] using ho
  · simpa [createStdinReader] using he

/-! ## Lines -/

theorem digitChar_ne_newline (k : Nat) (h : k < 10) : Nat.digitChar k ≠ '\n' := by
  interval_cases k <;> decide

theorem count_newline_toDigitsCore (f n : Nat) (acc : List Char) :
    (Nat.toDigitsCore 10 f n acc).count '\n' = acc.count '\n' := by
  induction f generalizing n acc with
  | zero => rfl
  | succ f ih =>
    have hd : Nat.digitChar (n % 10) ≠ '\n' :=
      digitChar_ne_newline (n % 10) (Nat.mod_lt _ (by norm_num))
    simp only [Nat.toDigitsCore]
    split_ifs
    · simp [List.count_cons, hd]
    · rw [ih]; simp [List.count_cons, hd]

theorem count_newline_toDigits (n : Nat) : (Nat.toDigits 10 n).count '\n' = 0 := by
  simp [Nat.toDigits, count_newline_toDigitsCore]

theorem count_newline_padLeft (width : Nat) (s : List Char) :
    (padLeft width s).count '\n' = s.count '\n' := by
  simp [padLeft, List.count_replicate]

theorem count_newline_fmt_u (width n : Nat) : (fmt_u width n).count '\n' = 0 := by
  simp [fmt_u, count_newline_padLeft, count_newline_toDigits]

theorem count_newline_fmt_d (width : Nat) (z : Int) : (fmt_d width z).count '\n' = 0 := by
  unfold fmt_d
  rw [count_newline_padLeft]
  split_ifs <;> simp [List.count_cons, count_newline_toDigits]

theorem count_newline_bit_rep (i : Nat) : ((bit_rep.getD i "").toList).count '\n' = 0 := by
  by_cases h : i < 16
  · interval_cases i <;> decide
  · rw [List.getD_eq_default _ _ (by simpa [bit_rep] using h)]
    rfl

theorem count_newline_printByte (byte : Nat) : (printByte byte).count '\n' = 0 := by
  simp only [printByte, List.count_append, count_newline_bit_rep]

theorem lineCount_printInt (value : Nat) : lineCount (printInt value) = 1 := by
  simp [lineCount, printInt, count_newline_printByte, count_newline_fmt_u,
    count_newline_fmt_d, List.count_cons]

theorem lineCount_printLong (value : Nat) : lineCount (printLong value) = 1 := by
  simp [lineCount, printLong, count_newline_printByte, count_newline_fmt_u,
    count_newline_fmt_d, List.count_cons]

theorem lineCount_append (a b : List Char) : lineCount (a ++ b) = lineCount a + lineCount b := by
  simp [lineCount]

theorem lineCount_flatMap_printInt (ws : List Nat) :
    lineCount (ws.flatMap printInt) = ws.length := by
  induction ws with
  | nil => rfl
  | cons w ws ih =>
    rw [List.flatMap_cons, lineCount_append, lineCount_printInt, ih, List.length_cons,
      Nat.add_comm]

theorem lineCount_flatMap_printLong (ws : List Nat) :
    lineCount (ws.flatMap printLong) = ws.length := by
  induction ws with
  | nil => rfl
  | cons w ws ih =>
    rw [List.flatMap_cons, lineCount_append, lineCount_printLong, ih, List.length_cons,
      Nat.add_comm]

/-! ## Claims about `main` -/

/-- C5: in mode "raw32" with a count argument whose value (`strtoul`) is n, on
an input stream of L 32-bit words, `main` writes the `printInt` lines of the
first min(n, L) words, in order and nothing else, that is exactly min(n, L)
lines, and the exit status is 0: by `return 0` when n ≤ L, by the `exit(0)` of
the reader at the end of the stream when L < n. -/
theorem main_raw32_with_count (env : Env) (e : Endian) (prog arg : String)
    (more : List String) (p : Proc) (ws : List Nat)
    (hw : ∀ w ∈ ws, w < 2 ^ 32)
    (h0 : p.nextInt_last_read = 0) (hs : p.stdin.src = stream32 e ws) :
    ∃ p',
      main env e (prog :: "raw32" :: arg :: more) p =
        (if ws.length < env.strtoul arg % 2 ^ 64 then .exit 0 p' else .ret 0 p') ∧
      (main env e (prog :: "raw32" :: arg :: more) p).status = some 0 ∧
      p'.stdout = p.stdout ++ (ws.take (env.strtoul arg % 2 ^ 64)).flatMap printInt ∧
      lineCount ((ws.take (env.strtoul arg % 2 ^ 64)).flatMap printInt) =
        min (env.strtoul arg % 2 ^ 64) ws.length ∧
      p'.stderr = p.stderr := by
  obtain ⟨p', h1, ho, he⟩ := main_raw32 env e (prog :: "raw32" :: arg :: more) p ws
    (by simp) rfl hw h0 hs
  have hc : getCount env (prog :: "raw32" :: arg :: more).length
      (prog :: "raw32" :: arg :: more) = env.strtoul arg % 2 ^ 64 := by
    simp [getCount]
  rw [hc] at h1 ho
  refine ⟨p', h1, ?_, ho, ?_, he⟩
  · rw [h1]; split_ifs <;> rfl
  · rw [lineCount_flatMap_printInt, List.length_take]

set_option maxRecDepth 100000 in
/-- Witness of C5: count 3 and four words available; the three lines of the
first three words are written and `main` returns 0. -/
theorem main_raw32_with_count_witness :
    (∀ w ∈ [1, 2, 4294967295, 4], w < 2 ^ 32) ∧
    ∃ p',
      main Env.demo .little ["stdin2testu01", "raw32", "3"]
          (Proc.start (stream32 .little [1, 2, 4294967295, 4]) [] []) = .ret 0 p' ∧
      p'.stdout =
        ("00000000 00000000 00000000 00000001           1           1\n" ++
         "00000000 00000000 00000000 00000010           2           2\n" ++
         "11111111 11111111 11111111 11111111  4294967295          -1\n").toList ∧
      lineCount p'.stdout = 3 := by
  obtain ⟨p', h1, -, ho, hl, -⟩ :=
    main_raw32_with_count Env.demo .little "stdin2testu01" "3" []
      (Proc.start (stream32 .little [1, 2, 4294967295, 4]) [] []) [1, 2, 4294967295, 4]
      (by decide) rfl rfl
  have hn : Env.demo.strtoul "3" % 2 ^ 64 = 3 := by decide
  rw [hn] at h1 ho hl
  rw [if_neg (by decide)] at h1
  have hout : p'.stdout = [1, 2, 4294967295].flatMap printInt := ho
  refine ⟨by decide, p', h1, ?_, ?_⟩
  · rw [hout]; decide
  · rw [hout]; exact hl

theorem main_raw32_no_count_long (env : Env) (e : Endian) (prog : String) (ws : List Nat)
    (hw : ∀ w ∈ ws, w < 2 ^ 32) (hlen : 2 ^ 64 - 1 ≤ ws.length) :
    ∃ p',
      main env e [prog, "raw32"] (Proc.start (stream32 e ws) [] []) = .ret 0 p' ∧
      p'.stdout = (ws.take (2 ^ 64 - 1)).flatMap printInt ∧
      lineCount p'.stdout = 2 ^ 64 - 1 := by
  obtain ⟨p', h1, ho, -⟩ := main_raw32 env e [prog, "raw32"]
    (Proc.start (stream32 e ws) [] []) ws (by simp) rfl hw rfl rfl
  have hc : getCount env [prog, "raw32"].length [prog, "raw32"] = 2 ^ 64 - 1 := rfl
  have hout : (Proc.start (stream32 e ws) [] []).stdout = [] := rfl
  rw [hc] at h1 ho
  rw [hout, List.nil_append] at ho
  rw [if_neg (Nat.not_lt.mpr hlen)] at h1
  refine ⟨p', h1, ho, ?_⟩
  rw [ho, lineCount_flatMap_printInt, List.length_take, Nat.min_eq_left hlen]

/-- C6, as stated, fails: without a count argument the loop of `main` runs
2^64 - 1 times at most.  On a stream of 2^64 words (all zero, little-endian
host) in mode "raw32", `main` leaves its loop because the count is used up and
returns 0; it has written 2^64 - 1 lines, one less than the stream has
words. -/
theorem main_raw32_no_count_stops_at_count :
    (List.replicate (2 ^ 64) 0).length = 2 ^ 64 ∧
    ∃ p',
      main Env.demo .little ["stdin2testu01", "raw32"]
          (Proc.start (stream32 .little (List.replicate (2 ^ 64) 0)) [] []) = .ret 0 p' ∧
      p'.stdout = ((List.replicate (2 ^ 64) 0).take (2 ^ 64 - 1)).flatMap printInt ∧
      lineCount p'.stdout = 2 ^ 64 - 1 :=
  ⟨List.length_replicate _ _,
   main_raw32_no_count_long Env.demo .little "stdin2testu01" (List.replicate (2 ^ 64) 0)
     (fun w hw => by rw [List.eq_of_mem_replicate hw]; norm_num)
     (by rw [List.length_replicate]; decide)⟩

/-- C6, amended: without a count argument the count is 2^64 - 1, and for
every input stream of fewer than 2^64 - 1 words, in mode "raw32" (32-bit
words) and in mode "raw64" (64-bit words), `main` writes the line of every
word of the stream, in order and nothing else, and the run ends with the
`exit(0)` of the reader at the end of the stream, not with the loop running
out of count. -/
theorem main_raw_no_count (env : Env) (e : Endian) (prog : String) (p32 p64 : Proc)
    (ws32 ws64 : List Nat)
    (hw32 : ∀ w ∈ ws32, w < 2 ^ 32) (hw64 : ∀ w ∈ ws64, w < 2 ^ 64)
    (hL32 : ws32.length < 2 ^ 64 - 1) (hL64 : ws64.length < 2 ^ 64 - 1)
    (h032 : p32.nextInt_last_read = 0) (h064 : p64.nextLong_last_read = 0)
    (hs32 : p32.stdin.src = stream32 e ws32) (hs64 : p64.stdin.src = stream64 e ws64) :
    getCount env 2 [prog, "raw32"] = 2 ^ 64 - 1 ∧
    getCount env 2 [prog, "raw64"] = 2 ^ 64 - 1 ∧
    (∃ p', main env e [prog, "raw32"] p32 = .exit 0 p' ∧
      p'.stdout = p32.stdout ++ ws32.flatMap printInt ∧
      lineCount (ws32.flatMap printInt) = ws32.length ∧ p'.stderr = p32.stderr) ∧
    (∃ p', main env e [prog, "raw64"] p64 = .exit 0 p' ∧
      p'.stdout = p64.stdout ++ ws64.flatMap printLong ∧
      lineCount (ws64.flatMap printLong) = ws64.length ∧ p'.stderr = p64.stderr) := by
  have hc32 : getCount env [prog, "raw32"].length [prog, "raw32"] = 2 ^ 64 - 1 := rfl
  have hc64 : getCount env [prog, "raw64"].length [prog, "raw64"] = 2 ^ 64 - 1 := rfl
  refine ⟨rfl, rfl, ?_, ?_⟩
  · obtain ⟨p', h1, ho, he⟩ := main_raw32 env e [prog, "raw32"] p32 ws32 (by simp) rfl
      hw32 h032 hs32
    rw [hc32] at h1 ho
    rw [if_pos hL32] at h1
    rw [List.take_of_length_le (Nat.le_of_lt hL32)] at ho
    exact ⟨p', h1, ho, lineCount_flatMap_printInt ws32, he⟩
  · obtain ⟨p', h1, ho, he⟩ := main_raw64 env e [prog, "raw64"] p64 ws64 (by simp) rfl
      hw64 h064 hs64
    rw [hc64] at h1 ho
    rw [if_pos hL64] at h1
    rw [List.take_of_length_le (Nat.le_of_lt hL64)] at ho
    exact ⟨p', h1, ho, lineCount_flatMap_printLong ws64, he⟩

/-- Witness of C6 (amended): two 32-bit words, and one 64-bit word, on a
big-endian host. -/
theorem main_raw_no_count_witness :
    ((∀ w ∈ [1, 2], w < 2 ^ 32) ∧ (∀ w ∈ [3], w < 2 ^ 64) ∧
      [1, 2].length < 2 ^ 64 - 1 ∧ [3].length < 2 ^ 64 - 1) ∧
    getCount Env.demo 2 ["stdin2testu01", "raw32"] = 2 ^ 64 - 1 ∧
    getCount Env.demo 2 ["stdin2testu01", "raw64"] = 2 ^ 64 - 1 ∧
    (∃ p', main Env.demo .big ["stdin2testu01", "raw32"]
        (Proc.start (stream32 .big [1, 2]) [] []) = .exit 0 p' ∧
      p'.stdout = (Proc.start (stream32 .big [1, 2]) [] []).stdout ++
        [1, 2].flatMap printInt ∧
      lineCount ([1, 2].flatMap printInt) = [1, 2].length ∧
      p'.stderr = (Proc.start (stream32 .big [1, 2]) [] []).stderr) ∧
    (∃ p', main Env.demo .big ["stdin2testu01", "raw64"]
        (Proc.start (stream64 .big [3]) [] []) = .exit 0 p' ∧
      p'.stdout = (Proc.start (stream64 .big [3]) [] []).stdout ++ [3].flatMap printLong ∧
      lineCount ([3].flatMap printLong) = [3].length ∧
      p'.stderr = (Proc.start (stream64 .big [3]) [] []).stderr) :=
  ⟨⟨by decide, by decide, by decide, by decide⟩,
   main_raw_no_count Env.demo .big "stdin2testu01"
     (Proc.start (stream32 .big [1, 2]) [] []) (Proc.start (stream64 .big [3]) [] [])
     [1, 2] [3] (by decide) (by decide) (by decide) (by decide) rfl rfl rfl rfl⟩

/-- C7: when the mode token is none of "SmallCrush", "Crush", "BigCrush",
"raw32" and "raw64", whatever arguments follow it, `main` ends with `exit(1)`;
all it has written is the message that quotes the token, on standard output;
standard input has only been reopened in binary mode by `createStdinReader`:
no `fread` was made on it and all its data is still unread; neither loop and
no battery has run (the outcome does not depend on them). -/
theorem main_unknown_mode (env : Env) (e : Endian) (prog spec : String)
    (more : List String) (p : Proc)
    (hS : spec ≠ "SmallCrush") (hC : spec ≠ "Crush") (hB : spec ≠ "BigCrush")
    (h32 : spec ≠ "raw32") (h64 : spec ≠ "raw64") :
    main env e (prog :: spec :: more) p =
      .exit 1 { p with
        stdin := freopen_rb p.stdin
        stdout := p.stdout ++ ("[ERROR] Unknown specification: ".toList ++ [apostrophe] ++
          spec.toList ++ [apostrophe, '\n']) } ∧
    (freopen_rb p.stdin).src = p.stdin.src ∧
    (freopen_rb p.stdin).reads = p.stdin.reads := by
  refine ⟨?_, rfl, rfl⟩
  simp [main, createStdinReader, TU_S, TU_C, TU_B, T_RAW_32, T_RAW_64, hS, hC, hB, h32, h64,
    Proc.printf]

/-- Witness of C7: the token "raw". -/
theorem main_unknown_mode_witness :
    (("raw" : String) ≠ "SmallCrush" ∧ ("raw" : String) ≠ "Crush" ∧
      ("raw" : String) ≠ "BigCrush" ∧ ("raw" : String) ≠ "raw32" ∧
      ("raw" : String) ≠ "raw64") ∧
    main Env.demo .little ("stdin2testu01" :: "raw" :: ["5"])
        (Proc.start (stream32 .little [1, 2]) [] []) =
      .exit 1 { Proc.start (stream32 .little [1, 2]) [] [] with
        stdin := freopen_rb (Proc.start (stream32 .little [1, 2]) [] []).stdin
        stdout := (Proc.start (stream32 .little [1, 2]) [] []).stdout ++
          ("[ERROR] Unknown specification: ".toList ++ [apostrophe] ++
          ("raw" : String).toList ++ [apostrophe, '\n']) } ∧
    (freopen_rb (Proc.start (stream32 .little [1, 2]) [] []).stdin).src =
      (Proc.start (stream32 .little [1, 2]) [] []).stdin.src ∧
    (freopen_rb (Proc.start (stream32 .little [1, 2]) [] []).stdin).reads =
      (Proc.start (stream32 .little [1, 2]) [] []).stdin.reads :=
  ⟨⟨by decide, by decide, by decide, by decide, by decide⟩,
   main_unknown_mode Env.demo .little "stdin2testu01" "raw" ["5"]
     (Proc.start (stream32 .little [1, 2]) [] [])
     (by decide) (by decide) (by decide) (by decide) (by decide)⟩

/-- C8: with fewer than 2 arguments (no mode token) `main` ends with
`exit(1)` at once; the process is left as it was but for one line on standard
output, the usage error, in which the three battery tokens "SmallCrush",
"Crush" and "BigCrush" stand; no reader was created, and standard input was
neither reopened nor read. -/
theorem main_no_mode (env : Env) (e : Endian) (argv : List String) (p : Proc)
    (h : argv.length < 2) :
    main env e argv p =
      .exit 1 { p with stdout := p.stdout ++
        "[ERROR] Specify test suite: 'SmallCrush', 'Crush' or 'BigCrush'\n".toList } ∧
    TU_S.toList <:+: "[ERROR] Specify test suite: 'SmallCrush', 'Crush' or 'BigCrush'\n".toList ∧
    TU_C.toList <:+: "[ERROR] Specify test suite: 'SmallCrush', 'Crush' or 'BigCrush'\n".toList ∧
    TU_B.toList <:+: "[ERROR] Specify test suite: 'SmallCrush', 'Crush' or 'BigCrush'\n".toList ∧
    lineCount "[ERROR] Specify test suite: 'SmallCrush', 'Crush' or 'BigCrush'\n".toList = 1 := by
  refine ⟨?_, by decide, by decide, by decide, by decide⟩
  have hmsg : "[ERROR] Specify test suite: ".toList ++ [apostrophe] ++ TU_S.toList ++
      [apostrophe, ',', ' ', apostrophe] ++ TU_C.toList ++ [apostrophe] ++ " or ".toList ++
      [apostrophe] ++ TU_B.toList ++ [apostrophe, '\n'] =
      "[ERROR] Specify test suite: 'SmallCrush', 'Crush' or 'BigCrush'\n".toList := by
    decide
  simp only [main, h, if_true, Proc.printf, hmsg]

/-- Witness of C8: the program run with no argument. -/
theorem main_no_mode_witness :
    ["stdin2testu01"].length < 2 ∧
    main Env.demo .little ["stdin2testu01"] (Proc.start (stream32 .little [1, 2]) [] []) =
      .exit 1 { Proc.start (stream32 .little [1, 2]) [] [] with
        stdout := (Proc.start (stream32 .little [1, 2]) [] []).stdout ++
          "[ERROR] Specify test suite: 'SmallCrush', 'Crush' or 'BigCrush'\n".toList } :=
  ⟨by decide,
   (main_no_mode Env.demo .little ["stdin2testu01"]
     (Proc.start (stream32 .little [1, 2]) [] []) (by decide)).1⟩

/-! ## `nextDouble` -/

theorem fromBytesLE_lt (bs : List Byte) : fromBytesLE bs < 256 ^ bs.length := by
  induction bs with
  | nil => simp [fromBytesLE]
  | cons b bs ih =>
    have hb := b.isLt
    simp only [fromBytesLE, List.length_cons, pow_succ]
    omega

theorem fromBytes_lt (e : Endian) (bs : List Byte) : fromBytes e bs < 256 ^ bs.length := by
  cases e
  · exact fromBytesLE_lt bs
  · simpa [fromBytes] using fromBytesLE_lt bs.reverse

theorem load_lt (e : Endian) (k : Nat) (buf : List Byte) (i : Nat) :
    load e k buf i < 256 ^ k := by
  unfold load
  refine lt_of_lt_of_le (fromBytes_lt e _) (Nat.pow_le_pow_right (by norm_num) ?_)
  exact List.length_take_le _ _

theorem nextInt_fetch_lt {e : Endian} {sta sta' : StdinReader_state} {p p' : Proc} {w : Nat}
    (h : nextInt_fetch e sta p = .ret (w, sta') p') : w < 2 ^ 32 := by
  unfold nextInt_fetch at h
  split_ifs at h
  cases h
  exact load_lt e 4 _ _

theorem nextInt_ret_lt {e : Endian} {sta sta' : StdinReader_state} {p p' : Proc} {w : Nat}
    (h : nextInt e sta p = .ret (w, sta') p') : w < 2 ^ 32 := by
  unfold nextInt at h
  split_ifs at h with h1
  · dsimp only at h
    split_ifs at h
    exact nextInt_fetch_lt h
  · exact nextInt_fetch_lt h

theorem roundHalfEven_intCast (z : ℤ) : roundHalfEven (z : ℚ) = z := by
  simp [roundHalfEven]

theorem Double.round_of_dyadic (x : ℚ) (m k : ℤ) (hx : x = m * 2 ^ k)
    (hk : max (Int.log 2 |x| - 52) (-1074) ≤ k) (hlt : |x| < 2 ^ 1024) :
    Double.round x = .finite x := by
  by_cases h0 : x = 0
  · simp [Double.round, h0]
  · have hnn : 0 ≤ k - max (Int.log 2 |x| - 52) (-1074) := by omega
    have hq : x / 2 ^ max (Int.log 2 |x| - 52) (-1074) =
        ((m * 2 ^ (k - max (Int.log 2 |x| - 52) (-1074)).toNat : ℤ) : ℚ) := by
      rw [hx, mul_div_assoc]
      conv_lhs => rw [← zpow_sub₀ (by norm_num : (2 : ℚ) ≠ 0)]
      rw [← hx]
      push_cast
      congr 1
      rw [← zpow_natCast, Int.toNat_of_nonneg hnn]
    have hr : (roundHalfEven (x / 2 ^ max (Int.log 2 |x| - 52) (-1074)) : ℚ) *
        2 ^ max (Int.log 2 |x| - 52) (-1074) = x := by
      rw [hq, roundHalfEven_intCast, ← hq]
      exact div_mul_cancel₀ _ (zpow_ne_zero _ (by norm_num))
    simp only [Double.round, h0, if_false, hr, not_le.mpr hlt]

theorem Double.ofULong_exact (n : Nat) (h : n < 2 ^ 32) : Double.ofULong n = .finite n := by
  unfold Double.ofULong
  by_cases h0 : n = 0
  · simp [Double.round, h0]
  have hpos : (0 : ℚ) < n := by exact_mod_cast Nat.pos_of_ne_zero h0
  refine Double.round_of_dyadic n n 0 (by simp) ?_ ?_
  · rw [abs_of_pos hpos, Int.log_natCast]
    have : Nat.log 2 n < 32 := Nat.log_lt_of_lt_pow h0 h
    omega
  · rw [abs_of_pos hpos]
    have h1 : (n : ℚ) < 2 ^ 32 := by exact_mod_cast h
    exact lt_trans h1 (by norm_num)

theorem Double.div_two32_exact (n : Nat) (h : n < 2 ^ 32) :
    Double.div (Double.ofULong n) two32 = .finite ((n : ℚ) / 2 ^ 32) := by
  rw [Double.ofULong_exact n h]
  have h4 : (4294967296 : ℚ) = 2 ^ 32 := by norm_num
  simp only [two32, Double.div, h4]
  rw [if_neg (by norm_num)]
  by_cases h0 : n = 0
  · simp [Double.round, h0]
  have hpos : (0 : ℚ) < (n : ℚ) / 2 ^ 32 := by
    have : (0 : ℚ) < n := by exact_mod_cast Nat.pos_of_ne_zero h0
    positivity
  have hlt1 : (n : ℚ) / 2 ^ 32 < 1 := by
    rw [div_lt_one (by norm_num)]
    exact_mod_cast h
  refine Double.round_of_dyadic _ n (-32) ?_ ?_ ?_
  · rw [zpow_neg, div_eq_mul_inv]; norm_cast
  · rw [abs_of_pos hpos]
    have : Int.log 2 ((n : ℚ) / 2 ^ 32) ≤ 0 := by
      have := Int.log_mono_right (b := 2) hpos (le_of_lt hlt1)
      rwa [Int.log_one_right] at this
    omega
  · rw [abs_of_pos hpos]
    exact lt_trans hlt1 (by norm_num)

/-- C9: when `nextInt` would return the word `w` (a 32-bit value) and leave
the reader and the process in a given state, `nextDouble` returns the double
whose value is exactly the rational w / 2^32 and leaves the same state, so it
has consumed that one word and nothing else; the value lies in [0, 1); it is
0 for the word 0 and, for the word 2^32 - 1, it is (2^32 - 1) / 2^32, below
1. -/
theorem nextDouble_exact (e : Endian) (sta sta' : StdinReader_state) (p p' : Proc) (w : Nat)
    (h : nextInt e sta p = .ret (w, sta') p') :
    w < 2 ^ 32 ∧
    nextDouble e sta p = .ret (.finite ((w : ℚ) / 2 ^ 32), sta') p' ∧
    (0 : ℚ) ≤ (w : ℚ) / 2 ^ 32 ∧ (w : ℚ) / 2 ^ 32 < 1 ∧
    Double.div (Double.ofULong 0) two32 = .finite 0 ∧
    Double.div (Double.ofULong (2 ^ 32 - 1)) two32 = .finite ((2 ^ 32 - 1 : ℚ) / 2 ^ 32) ∧
    ((2 ^ 32 - 1 : ℚ) / 2 ^ 32) < 1 := by
  have hw := nextInt_ret_lt h
  refine ⟨hw, ?_, by positivity, ?_, ?_, ?_, by norm_num⟩
  · simp only [nextDouble, h, Double.div_two32_exact w hw]
  · rw [div_lt_one (by norm_num)]
    exact_mod_cast hw
  · have := Double.div_two32_exact 0 (by norm_num)
    simpa using this
  · have := Double.div_two32_exact (2 ^ 32 - 1) (by norm_num)
    rw [this]
    norm_num

/-- Witness of C9: the first call on a fresh reader whose stream holds the
word 3221225472 = 3 * 2^30; the double returned is 3/4. -/
theorem nextDouble_exact_witness :
    ∃ sta' p',
      nextInt .little
          (createStdinReader (Proc.start (stream32 .little [3221225472]) [] [])).1.state
          (createStdinReader (Proc.start (stream32 .little [3221225472]) [] [])).2 =
        .ret (3221225472, sta') p' ∧
      nextDouble .little
          (createStdinReader (Proc.start (stream32 .little [3221225472]) [] [])).1.state
          (createStdinReader (Proc.start (stream32 .little [3221225472]) [] [])).2 =
        .ret (.finite (((3221225472 : Nat) : ℚ) / 2 ^ 32), sta') p' :=
  ⟨_, _, by rfl,
   (nextDouble_exact .little _ _
     (createStdinReader (Proc.start (stream32 .little [3221225472]) [] [])).2 _ 3221225472
     (by rfl)).2.1⟩

/-! ## The printed line -/

set_option maxRecDepth 100000 in
theorem printByte_eq_binary8 : ∀ b : Fin 256, printByte b.val = binary8 b.val := by decide

set_option maxRecDepth 100000 in
theorem parseBinary_binary8 : ∀ b : Fin 256, parseBinary (binary8 b.val) = b.val := by decide

theorem length_binary8 (b : Nat) : (binary8 b).length = 8 := rfl

theorem foldl_binary_shift (s : List Char) (a : Nat) :
    s.foldl (fun acc c => 2 * acc + (if c = '1' then 1 else 0)) a =
      a * 2 ^ s.length + parseBinary s := by
  unfold parseBinary
  induction s generalizing a with
  | nil => simp
  | cons c s ih =>
    rw [List.foldl_cons, ih, List.foldl_cons, ih (2 * 0 + _), List.length_cons, pow_succ]
    ring

theorem parseBinary_append (s t : List Char) :
    parseBinary (s ++ t) = parseBinary s * 2 ^ t.length + parseBinary t := by
  conv_lhs => unfold parseBinary
  rw [List.foldl_append, foldl_binary_shift]
  rfl

theorem digitChar_value (k : Nat) (h : k < 10) : (Nat.digitChar k).toNat - 48 = k := by
  interval_cases k <;> rfl

theorem digitChar_ne_blank (k : Nat) (h : k < 10) : Nat.digitChar k ≠ ' ' := by
  interval_cases k <;> decide

theorem foldl_toDigitsCore (f n : Nat) (acc : List Char) (h : n < f) :
    (Nat.toDigitsCore 10 f n acc).foldl (fun a c => 10 * a + (c.toNat - 48)) 0 =
      acc.foldl (fun a c => 10 * a + (c.toNat - 48)) n := by
  induction f generalizing n acc with
  | zero => omega
  | succ f ih =>
    have hd := digitChar_value (n % 10) (Nat.mod_lt _ (by norm_num))
    simp only [Nat.toDigitsCore]
    split_ifs with h0
    · rw [List.foldl_cons, hd]
      congr 1
      omega
    · rw [ih (n / 10) _ (by omega), List.foldl_cons, hd]
      congr 1
      omega

theorem parseUnsigned_toDigits (n : Nat) : parseUnsigned (Nat.toDigits 10 n) = n := by
  unfold parseUnsigned Nat.toDigits
  rw [foldl_toDigitsCore _ _ _ (Nat.lt_succ_self n)]
  rfl

theorem digitChar_ne_minus (k : Nat) (h : k < 10) : Nat.digitChar k ≠ '-' := by
  interval_cases k <;> decide

theorem toDigitsCore_head (f n : Nat) (acc : List Char) :
    ∃ c rest, Nat.toDigitsCore 10 (f + 1) n acc = c :: rest ∧ c ≠ ' ' ∧ c ≠ '-' := by
  induction f generalizing n acc with
  | zero =>
    refine ⟨Nat.digitChar (n % 10), acc, ?_, digitChar_ne_blank _ (Nat.mod_lt _ (by norm_num)),
      digitChar_ne_minus _ (Nat.mod_lt _ (by norm_num))⟩
    simp [Nat.toDigitsCore]
  | succ f ih =>
    rw [Nat.toDigitsCore]
    split_ifs
    · exact ⟨_, _, rfl, digitChar_ne_blank _ (Nat.mod_lt _ (by norm_num)),
        digitChar_ne_minus _ (Nat.mod_lt _ (by norm_num))⟩
    · exact ih _ _

theorem dropWhile_blank_padLeft (width : Nat) (s : List Char) :
    (padLeft width s).dropWhile (· == ' ') = s.dropWhile (· == ' ') := by
  unfold padLeft
  induction width - s.length with
  | zero => simp
  | succ k ih => simp [List.replicate_succ, ih]

theorem readUnsigned_fmt_u (width n : Nat) : readUnsigned (fmt_u width n) = n := by
  unfold readUnsigned fmt_u
  rw [dropWhile_blank_padLeft]
  obtain ⟨c, rest, hc, hne, -⟩ := toDigitsCore_head n n []
  have hd : Nat.toDigits 10 n = c :: rest := hc
  have := parseUnsigned_toDigits n
  rw [hd] at this ⊢
  rw [List.dropWhile_cons_of_neg (by simpa using hne)]
  exact this

theorem readSigned_fmt_d (width : Nat) (z : Int) : readSigned (fmt_d width z) = z := by
  unfold readSigned fmt_d
  rw [dropWhile_blank_padLeft]
  split_ifs with hz
  · rw [List.dropWhile_cons_of_neg (by decide)]
    simp only [parseUnsigned_toDigits]
    omega
  · obtain ⟨c, rest, hc, hne, hminus⟩ := toDigitsCore_head z.toNat z.toNat []
    have hd : Nat.toDigits 10 z.toNat = c :: rest := hc
    have hval := parseUnsigned_toDigits z.toNat
    rw [hd] at hval ⊢
    rw [List.dropWhile_cons_of_neg (by simpa using hne)]
    split
    · rename_i heq
      exact absurd (List.cons.inj heq).1 hminus
    · rw [hval]
      omega

theorem toInt32_of_lt (v : Nat) (hv : v < 2 ^ 32) :
    toInt32 v = (if v < 2 ^ 31 then (v : Int) else (v : Int) - 2 ^ 32) := by
  simp only [toInt32, Nat.mod_eq_of_lt hv]

theorem printInt_bytes (v : Nat) (hv : v < 2 ^ 32) :
    ((v % 2 ^ 32) >>> 24 &&& 0xff) % 256 = v / 2 ^ 24 % 256 ∧
    ((v % 2 ^ 32) >>> 16 &&& 0xff) % 256 = v / 2 ^ 16 % 256 ∧
    ((v % 2 ^ 32) >>> 8 &&& 0xff) % 256 = v / 2 ^ 8 % 256 ∧
    ((v % 2 ^ 32) &&& 0xff) % 256 = v % 256 := by
  have h255 : (0xff : Nat) = 2 ^ 8 - 1 := by norm_num
  simp only [Nat.mod_eq_of_lt hv, h255, Nat.and_pow_two_sub_one_eq_mod,
    Nat.shiftRight_eq_div_pow]
  norm_num

/-- C10: for every 32-bit value v the line `printInt` writes is: four groups
of 8 binary digits, those of the octets of v from the most significant octet
to the least and, within each, from the most significant bit to the least,
with one blank between groups; two blanks; v in decimal, right-justified in
10 columns; one blank; the two's-complement reading of v as a signed 32-bit
integer in decimal, right-justified in 11 columns; a newline.  The 32 binary
digits read as one binary numeral give v, the unsigned field read back gives
v, and the signed field read back gives the signed integer that is v modulo
2^32: each of the three fields determines the word. -/
theorem printInt_fields (v : Nat) (hv : v < 2 ^ 32) :
    printInt v =
      binary8 (v / 2 ^ 24 % 256) ++ [' '] ++ binary8 (v / 2 ^ 16 % 256) ++ [' '] ++
      binary8 (v / 2 ^ 8 % 256) ++ [' '] ++ binary8 (v % 256) ++
      ([' ', ' '] ++ fmt_u 10 v ++ [' '] ++ fmt_d 11 (toInt32 v) ++ ['\n']) ∧
    parseBinary (binary8 (v / 2 ^ 24 % 256) ++ binary8 (v / 2 ^ 16 % 256) ++
      binary8 (v / 2 ^ 8 % 256) ++ binary8 (v % 256)) = v ∧
    readUnsigned (fmt_u 10 v) = v ∧
    readSigned (fmt_d 11 (toInt32 v)) = toInt32 v ∧
    toInt32 v = (if v < 2 ^ 31 then (v : Int) else (v : Int) - 2 ^ 32) ∧
    toInt32 v % 2 ^ 32 = (v : Int) := by
  have hb (n : Nat) : printByte (n % 256) = binary8 (n % 256) :=
    printByte_eq_binary8 ⟨n % 256, Nat.mod_lt _ (by norm_num)⟩
  have hp (n : Nat) : parseBinary (binary8 (n % 256)) = n % 256 :=
    parseBinary_binary8 ⟨n % 256, Nat.mod_lt _ (by norm_num)⟩
  obtain ⟨h3, h2, h1, h0⟩ := printInt_bytes v hv
  rw [Nat.mod_eq_of_lt hv] at h3 h2 h1 h0
  refine ⟨?_, ?_, readUnsigned_fmt_u 10 v, readSigned_fmt_d 11 _, toInt32_of_lt v hv, ?_⟩
  · unfold printInt
    simp only [h3, h2, h1, h0, hb, Nat.mod_eq_of_lt hv]
  · simp only [parseBinary_append, hp, length_binary8]
    omega
  · rw [toInt32_of_lt v hv]
    split_ifs <;> omega

/-- Witness of C10: the value 0xCD236F70. -/
theorem printInt_fields_witness :
    (3441651568 < 2 ^ 32) ∧
    printInt 3441651568 =
      "11001101".toList ++ [' '] ++ "00100011".toList ++ [' '] ++
      "01101111".toList ++ [' '] ++ "01110000".toList ++
      ([' ', ' '] ++ "3441651568".toList ++ [' '] ++ " -853315728".toList ++ ['\n']) ∧
    parseBinary ("11001101".toList ++ "00100011".toList ++ "01101111".toList ++
      "01110000".toList) = 3441651568 ∧
    readUnsigned "3441651568".toList = 3441651568 ∧
    readSigned " -853315728".toList = -853315728 :=
  ⟨by decide,
   (printInt_fields 3441651568 (by decide)).1,
   (printInt_fields 3441651568 (by decide)).2.1,
   (printInt_fields 3441651568 (by decide)).2.2.1,
   (printInt_fields 3441651568 (by decide)).2.2.2.1⟩

/-! ## Particular lines -/

set_option maxRecDepth 100000 in
/-- C11: what `printInt` writes for the value 0x12345678.  The format
`"  %10u %11d\n"` puts two blanks and a field of 10 columns after the octets,
so there are three blanks before the nine digits of 305419896; the line of
the specification has four, it is the line written with one more blank after
the octets. -/
theorem printInt_0x12345678 :
    printInt 0x12345678 =
      "00010010 00110100 01010110 01111000   305419896   305419896\n".toList ∧
    printInt 0x12345678 ≠
      "00010010 00110100 01010110 01111000    305419896   305419896\n".toList ∧
    "00010010 00110100 01010110 01111000    305419896   305419896\n".toList =
      (printInt 0x12345678).take 35 ++ ' ' :: (printInt 0x12345678).drop 35 := by
  decide

set_option maxRecDepth 100000 in
/-- C12: `printInt` of the word 0x00000000 writes four octets 00000000 and the
decimals 0 and 0; `printInt` of the word 0xFFFFFFFF writes four octets
11111111, the binary digits of the octet ff with every bit set, and the
decimals 4294967295 and -1. -/
theorem printInt_zero_and_all_ones :
    printInt 0x00000000 =
      "00000000 00000000 00000000 00000000           0           0\n".toList ∧
    printInt 0xFFFFFFFF =
      "11111111 11111111 11111111 11111111  4294967295          -1\n".toList ∧
    binary8 0x00 = "00000000".toList ∧ binary8 0xff = "11111111".toList ∧
    parseBinary "11111111".toList = 0xff ∧
    readUnsigned "          0".toList = 0 ∧ readSigned "          0".toList = 0 ∧
    readUnsigned "4294967295".toList = 4294967295 ∧ readSigned "         -1".toList = -1 := by
  decide

set_option maxRecDepth 100000 in
/-- C18: what `printInt` writes for the value 0xCD236F70.  There are two
blanks between the octets and 3441651568, where the line in the comment above
`printInt` has three: the line of the comment is the line written with one
more blank after the octets. -/
theorem printInt_0xCD236F70 :
    printInt 0xCD236F70 =
      "11001101 00100011 01101111 01110000  3441651568  -853315728\n".toList ∧
    printInt 0xCD236F70 ≠
      "11001101 00100011 01101111 01110000   3441651568  -853315728\n".toList ∧
    "11001101 00100011 01101111 01110000   3441651568  -853315728\n".toList =
      (printInt 0xCD236F70).take 35 ++ ' ' :: (printInt 0xCD236F70).drop 35 := by
  decide

/-! ## The line of `printLong` -/

theorem toInt64_of_lt (v : Nat) (hv : v < 2 ^ 64) :
    toInt64 v = (if v < 2 ^ 63 then (v : Int) else (v : Int) - 2 ^ 64) := by
  simp only [toInt64, Nat.mod_eq_of_lt hv]

theorem printLong_bytes (v : Nat) :
    (v >>> 56 &&& 0xff) % 256 = v / 2 ^ 56 % 256 ∧
    (v >>> 48 &&& 0xff) % 256 = v / 2 ^ 48 % 256 ∧
    (v >>> 40 &&& 0xff) % 256 = v / 2 ^ 40 % 256 ∧
    (v >>> 32 &&& 0xff) % 256 = v / 2 ^ 32 % 256 ∧
    (v >>> 24 &&& 0xff) % 256 = v / 2 ^ 24 % 256 ∧
    (v >>> 16 &&& 0xff) % 256 = v / 2 ^ 16 % 256 ∧
    (v >>> 8 &&& 0xff) % 256 = v / 2 ^ 8 % 256 ∧
    (v &&& 0xff) % 256 = v % 256 := by
  have h255 : (0xff : Nat) = 2 ^ 8 - 1 := by norm_num
  simp only [h255, Nat.and_pow_two_sub_one_eq_mod, Nat.shiftRight_eq_div_pow]
  norm_num

set_option maxRecDepth 100000 in
/-- C13: for every 64-bit value v the line `printLong` writes is: eight
groups of 8 binary digits, those of the octets of v from the most significant
octet to the least, most significant bit first, with one blank between
groups; two blanks; v in decimal, right-justified in 20 columns; one blank;
the two's-complement reading of v as a signed 64-bit integer in decimal,
right-justified in 20 columns; a newline.  The 64 binary digits read as one
binary numeral give v, the unsigned field reads back to v and the signed
field to the signed integer that is v modulo 2^64.  For 0x9A535AE4471043C5
the line is the one in the comment above `printLong`. -/
theorem printLong_fields (v : Nat) (hv : v < 2 ^ 64) :
    printLong v =
      binary8 (v / 2 ^ 56 % 256) ++ [' '] ++ binary8 (v / 2 ^ 48 % 256) ++ [' '] ++
      binary8 (v / 2 ^ 40 % 256) ++ [' '] ++ binary8 (v / 2 ^ 32 % 256) ++ [' '] ++
      binary8 (v / 2 ^ 24 % 256) ++ [' '] ++ binary8 (v / 2 ^ 16 % 256) ++ [' '] ++
      binary8 (v / 2 ^ 8 % 256) ++ [' '] ++ binary8 (v % 256) ++
      ([' ', ' '] ++ fmt_u 20 v ++ [' '] ++ fmt_d 20 (toInt64 v) ++ ['\n']) ∧
    parseBinary (binary8 (v / 2 ^ 56 % 256) ++ binary8 (v / 2 ^ 48 % 256) ++
      binary8 (v / 2 ^ 40 % 256) ++ binary8 (v / 2 ^ 32 % 256) ++
      binary8 (v / 2 ^ 24 % 256) ++ binary8 (v / 2 ^ 16 % 256) ++
      binary8 (v / 2 ^ 8 % 256) ++ binary8 (v % 256)) = v ∧
    readUnsigned (fmt_u 20 v) = v ∧
    readSigned (fmt_d 20 (toInt64 v)) = toInt64 v ∧
    toInt64 v = (if v < 2 ^ 63 then (v : Int) else (v : Int) - 2 ^ 64) ∧
    toInt64 v % 2 ^ 64 = (v : Int) ∧
    printLong 0x9A535AE4471043C5 =
      ("10011010 01010011 01011010 11100100 01000111 00010000 01000011 11000101" ++
       "  11120331841399178181 -7326412232310373435\n").toList := by
  have hb (n : Nat) : printByte (n % 256) = binary8 (n % 256) :=
    printByte_eq_binary8 ⟨n % 256, Nat.mod_lt _ (by norm_num)⟩
  have hp (n : Nat) : parseBinary (binary8 (n % 256)) = n % 256 :=
    parseBinary_binary8 ⟨n % 256, Nat.mod_lt _ (by norm_num)⟩
  obtain ⟨h7, h6, h5, h4, h3, h2, h1, h0⟩ := printLong_bytes v
  refine ⟨?_, ?_, readUnsigned_fmt_u 20 v, readSigned_fmt_d 20 _, toInt64_of_lt v hv, ?_,
    by decide⟩
  · unfold printLong
    simp only [Nat.mod_eq_of_lt hv, h7, h6, h5, h4, h3, h2, h1, h0, hb]
  · simp only [parseBinary_append, hp, length_binary8]
    omega
  · rw [toInt64_of_lt v hv]
    split_ifs <;> omega

/-- Witness of C13: the value 0x9A535AE4471043C5, whose signed reading is
negative. -/
theorem printLong_fields_witness :
    (11120331841399178181 < 2 ^ 64) ∧
    readUnsigned (fmt_u 20 11120331841399178181) = 11120331841399178181 ∧
    readSigned (fmt_d 20 (toInt64 11120331841399178181)) = toInt64 11120331841399178181 ∧
    toInt64 11120331841399178181 =
      (if 11120331841399178181 < 2 ^ 63 then ((11120331841399178181 : Nat) : Int)
        else ((11120331841399178181 : Nat) : Int) - 2 ^ 64) ∧
    toInt64 11120331841399178181 % 2 ^ 64 = ((11120331841399178181 : Nat) : Int) :=
  ⟨by decide,
   (printLong_fields 11120331841399178181 (by decide)).2.2.1,
   (printLong_fields 11120331841399178181 (by decide)).2.2.2.1,
   (printLong_fields 11120331841399178181 (by decide)).2.2.2.2.1,
   (printLong_fields 11120331841399178181 (by decide)).2.2.2.2.2.1⟩

/-! ## Widths -/

theorem length_padLeft (width : Nat) (s : List Char) :
    (padLeft width s).length = max width s.length := by
  simp only [padLeft, List.length_append, List.length_replicate]
  omega

theorem length_toDigits_le (n k : Nat) (hk : 0 < k) (h : n < 10 ^ k) :
    (Nat.toDigits 10 n).length ≤ k :=
  Nat.toDigitsCore_length 10 (by norm_num) (n + 1) n k h hk

theorem length_fmt_u_zero (n k : Nat) (hk : 0 < k) (h : n < 10 ^ k) :
    (fmt_u 0 n).length ≤ k := by
  rw [fmt_u, length_padLeft, Nat.zero_max]
  exact length_toDigits_le n k hk h

theorem length_fmt_d_zero (z : Int) (k : Nat) (hk : 0 < k) (hlo : -(10 ^ k : Int) < z)
    (hhi : z < 10 ^ k) : (fmt_d 0 z).length ≤ k + 1 := by
  rw [fmt_d, length_padLeft, Nat.zero_max]
  split_ifs with hz
  · rw [List.length_cons]
    have : z.natAbs < 10 ^ k := by zify; rw [abs_of_neg hz]; omega
    have := length_toDigits_le z.natAbs k hk this
    omega
  · have : z.toNat < 10 ^ k := by zify; rw [Int.toNat_of_nonneg (by omega)]; exact hhi
    have := length_toDigits_le z.toNat k hk this
    omega

theorem length_fmt_u (width n : Nat) (h : (fmt_u 0 n).length ≤ width) :
    (fmt_u width n).length = width := by
  rw [fmt_u, length_padLeft] at *
  omega

theorem length_fmt_d (width : Nat) (z : Int) (h : (fmt_d 0 z).length ≤ width) :
    (fmt_d width z).length = width := by
  rw [fmt_d, length_padLeft] at *
  omega

theorem length_printByte (n : Nat) : (printByte (n % 256)).length = 8 := by
  rw [printByte_eq_binary8 ⟨n % 256, Nat.mod_lt _ (by norm_num)⟩]
  rfl

theorem toInt32_range (v : Nat) : -(2 ^ 31 : Int) ≤ toInt32 v ∧ toInt32 v < 2 ^ 31 := by
  have := Nat.mod_lt v (by norm_num : 0 < 2 ^ 32)
  unfold toInt32
  split_ifs <;> omega

theorem toInt64_range (v : Nat) : -(2 ^ 63 : Int) ≤ toInt64 v ∧ toInt64 v < 2 ^ 63 := by
  have := Nat.mod_lt v (by norm_num : 0 < 2 ^ 64)
  unfold toInt64
  split_ifs <;> omega

theorem field_widths (v : Nat) :
    (fmt_u 0 (v % 2 ^ 32)).length ≤ 10 ∧ (fmt_d 0 (toInt32 v)).length ≤ 11 ∧
    (fmt_u 0 (v % 2 ^ 64)).length ≤ 20 ∧ (fmt_d 0 (toInt64 v)).length ≤ 20 := by
  have h32 := Nat.mod_lt v (by norm_num : 0 < 2 ^ 32)
  have h64 := Nat.mod_lt v (by norm_num : 0 < 2 ^ 64)
  obtain ⟨a1, a2⟩ := toInt32_range v
  obtain ⟨b1, b2⟩ := toInt64_range v
  refine ⟨length_fmt_u_zero _ 10 (by norm_num) ?_, length_fmt_d_zero _ 10 (by norm_num) ?_ ?_,
    length_fmt_u_zero _ 20 (by norm_num) ?_, length_fmt_d_zero _ 19 (by norm_num) ?_ ?_⟩
  · exact lt_trans h32 (by norm_num)
  · exact lt_of_lt_of_le (by norm_num) a1
  · exact lt_trans a2 (by norm_num)
  · exact lt_trans h64 (by norm_num)
  · exact lt_of_lt_of_le (by norm_num) b1
  · exact lt_trans b2 (by norm_num)

/-- C20: the raw lines have a fixed width.  For every value (the parameter
is reduced to 32 bits) `printInt` writes 59 characters, none of them a
newline, and then a newline; for every value (reduced to 64 bits)
`printLong` writes 114 characters, none of them a newline, and then a
newline.  The decimal of a 32-bit value has at most 10 characters and that of
its signed reading at most 11, sign included; for 64 bits both have at most
20: no field of `"  %10u %11d\n"` or `"  %20lu %20ld\n"` is ever wider than
its width. -/
theorem raw_lines_fixed_width (v : Nat) :
    (∃ line, printInt v = line ++ ['\n'] ∧ line.length = 59 ∧ lineCount line = 0) ∧
    (∃ line, printLong v = line ++ ['\n'] ∧ line.length = 114 ∧ lineCount line = 0) ∧
    (fmt_u 0 (v % 2 ^ 32)).length ≤ 10 ∧ (fmt_d 0 (toInt32 v)).length ≤ 11 ∧
    (fmt_u 0 (v % 2 ^ 64)).length ≤ 20 ∧ (fmt_d 0 (toInt64 v)).length ≤ 20 ∧
    (fmt_u 10 (v % 2 ^ 32)).length = 10 ∧ (fmt_d 11 (toInt32 v)).length = 11 ∧
    (fmt_u 20 (v % 2 ^ 64)).length = 20 ∧ (fmt_d 20 (toInt64 v)).length = 20 := by
  obtain ⟨w1, w2, w3, w4⟩ := field_widths v
  have e1 := length_fmt_u 10 _ w1
  have e2 := length_fmt_d 11 _ w2
  have e3 := length_fmt_u 20 _ w3
  have e4 := length_fmt_d 20 _ w4
  have t32 : toInt32 (v % 2 ^ 32) = toInt32 v := by simp [toInt32]
  have t64 : toInt64 (v % 2 ^ 64) = toInt64 v := by simp [toInt64]
  obtain ⟨l32, h32⟩ : ∃ line, printInt v = line ++ ['\n'] := by
    unfold printInt
    exact ⟨_, (List.append_assoc _ _ _).symm⟩
  obtain ⟨l64, h64⟩ : ∃ line, printLong v = line ++ ['\n'] := by
    unfold printLong
    exact ⟨_, (List.append_assoc _ _ _).symm⟩
  have n32 : (printInt v).length = 60 := by
    simp only [printInt, List.length_append, length_printByte, t32, e1, e2, List.length_cons,
      List.length_nil]
  have n64 : (printLong v).length = 115 := by
    simp only [printLong, List.length_append, length_printByte, t64, e3, e4, List.length_cons,
      List.length_nil]
  have c32 := lineCount_printInt v
  have c64 := lineCount_printLong v
  rw [h32] at n32 c32
  rw [h64] at n64 c64
  rw [lineCount_append] at c32 c64
  have hnl : lineCount ['\n'] = 1 := rfl
  rw [hnl] at c32 c64
  simp only [List.length_append, List.length_cons, List.length_nil] at n32 n64
  exact ⟨⟨l32, h32, by omega, by omega⟩, ⟨l64, h64, by omega, by omega⟩,
    w1, w2, w3, w4, e1, e2, e3, e4⟩

/-! ## Zero words read -/

theorem nextInt_eq_refilled (e : Endian) (sta : StdinReader_state) (p : Proc) :
    nextInt e sta p =
      (if sta.index ≥ p.nextInt_last_read then
        nextInt_refilled e sta p (fread 4 BUFFER_LENGTH_32 p.stdin)
      else nextInt_fetch e sta p) := rfl

theorem nextLong_eq_refilled (e : Endian) (sta : StdinReader_state) (p : Proc) :
    nextLong e sta p =
      (if sta.index ≥ p.nextLong_last_read then
        nextLong_refilled e sta p (fread 8 BUFFER_LENGTH_64 p.stdin)
      else nextLong_fetch e sta p) := rfl

/-- C17: a fill count of 0 is never served from.  A call of `nextInt` or
`nextLong` whose cursor has reached the fill count continues, after its
`fread`, as `nextInt_refilled` or `nextLong_refilled`; and whenever that
`fread` has read zero words, whatever else it reports, the call returns no
value: the process ends with `exit(0)` and no output when the end-of-file
indicator is set, with `exit(1)` otherwise, after `perror` when the error
indicator is set and after writing "[ERROR] No data from stdin" and a
newline to standard output when neither indicator is set. -/
theorem refill_zero_words_exits (e : Endian) (sta : StdinReader_state) (p : Proc)
    (r32 r64 : ReadResult) (h32 : r32.count = 0) (h64 : r64.count = 0) :
    nextInt e sta p =
      (if sta.index ≥ p.nextInt_last_read then
        nextInt_refilled e sta p (fread 4 BUFFER_LENGTH_32 p.stdin)
      else nextInt_fetch e sta p) ∧
    nextLong e sta p =
      (if sta.index ≥ p.nextLong_last_read then
        nextLong_refilled e sta p (fread 8 BUFFER_LENGTH_64 p.stdin)
      else nextLong_fetch e sta p) ∧
    nextInt_refilled e sta p r32 =
      .exit (if feof r32.file then 0 else 1)
        (if feof r32.file then { p with stdin := r32.file, nextInt_last_read := 0 }
         else if ferror r32.file then
           { p with stdin := r32.file, nextInt_last_read := 0,
                    stderr := p.stderr ++ "[ERROR] Failed to read stdin: ".toList ++
                      p.errno ++ ['\n'] }
         else
           { p with stdin := r32.file, nextInt_last_read := 0,
                    stdout := p.stdout ++ "[ERROR] No data from stdin\n".toList }) ∧
    nextLong_refilled e sta p r64 =
      .exit (if feof r64.file then 0 else 1)
        (if feof r64.file then { p with stdin := r64.file, nextLong_last_read := 0 }
         else if ferror r64.file then
           { p with stdin := r64.file, nextLong_last_read := 0,
                    stderr := p.stderr ++ "[ERROR] Failed to read stdin: ".toList ++
                      p.errno ++ ['\n'] }
         else
           { p with stdin := r64.file, nextLong_last_read := 0,
                    stdout := p.stdout ++ "[ERROR] No data from stdin\n".toList }) := by
  refine ⟨rfl, rfl, ?_, ?_⟩
  · simp only [nextInt_refilled, h32]
    split_ifs <;> simp_all [BUFFER_LENGTH_32, Proc.perror, Proc.printf]
  · simp only [nextLong_refilled, h64]
    split_ifs <;> simp_all [BUFFER_LENGTH_64, BUFFER_LENGTH_32, Proc.perror, Proc.printf]

/-- Witness of C17: a read of zero words that sets neither indicator. -/
theorem refill_zero_words_exits_witness :
    ((⟨0, [], ⟨[], false, false, true, 1⟩⟩ : ReadResult).count = 0) ∧
    nextInt_refilled .little (createStdinReader (Proc.start [] [] [])).1.state
        (createStdinReader (Proc.start [] [] [])).2 ⟨0, [], ⟨[], false, false, true, 1⟩⟩ =
      .exit 1 { (createStdinReader (Proc.start [] [] [])).2 with
        stdin := ⟨[], false, false, true, 1⟩, nextInt_last_read := 0,
        stdout := "[ERROR] No data from stdin\n".toList } ∧
    nextLong_refilled .little (createStdinReader (Proc.start [] [] [])).1.state
        (createStdinReader (Proc.start [] [] [])).2 ⟨0, [], ⟨[], false, false, true, 1⟩⟩ =
      .exit 1 { (createStdinReader (Proc.start [] [] [])).2 with
        stdin := ⟨[], false, false, true, 1⟩, nextLong_last_read := 0,
        stdout := "[ERROR] No data from stdin\n".toList } :=
  ⟨rfl,
   (refill_zero_words_exits .little (createStdinReader (Proc.start [] [] [])).1.state
     (createStdinReader (Proc.start [] [] [])).2 ⟨0, [], ⟨[], false, false, true, 1⟩⟩
     ⟨0, [], ⟨[], false, false, true, 1⟩⟩ rfl rfl).2.2.1,
   (refill_zero_words_exits .little (createStdinReader (Proc.start [] [] [])).1.state
     (createStdinReader (Proc.start [] [] [])).2 ⟨0, [], ⟨[], false, false, true, 1⟩⟩
     ⟨0, [], ⟨[], false, false, true, 1⟩⟩ rfl rfl).2.2.2⟩

/-! ## Cursor and fill count -/

theorem nextInt_fetch_ret {e : Endian} {sta sta' : StdinReader_state} {p p' : Proc} {v : Nat}
    (h : nextInt_fetch e sta p = .ret (v, sta') p') :
    sta.index < BUFFER_LENGTH_32 ∧ sta'.index = (sta.index + 1) % 2 ^ 32 ∧ p' = p := by
  unfold nextInt_fetch at h
  split_ifs at h with hi
  cases h
  exact ⟨hi, rfl, rfl⟩

theorem nextLong_fetch_ret {e : Endian} {sta sta' : StdinReader_state} {p p' : Proc} {v : Nat}
    (h : nextLong_fetch e sta p = .ret (v, sta') p') :
    sta.index < BUFFER_LENGTH_64 ∧ sta'.index = (sta.index + 1) % 2 ^ 32 ∧ p' = p := by
  unfold nextLong_fetch at h
  split_ifs at h with hi
  cases h
  exact ⟨hi, rfl, rfl⟩

theorem nextInt_ret_index {e : Endian} {sta sta' : StdinReader_state} {p p' : Proc} {v : Nat}
    (h : nextInt e sta p = .ret (v, sta') p') :
    1 ≤ sta'.index ∧ sta'.index ≤ p'.nextInt_last_read := by
  rw [nextInt_eq_refilled] at h
  split_ifs at h with hr
  · unfold nextInt_refilled at h
    dsimp only at h
    split_ifs at h with hz
    obtain ⟨-, hi, hp⟩ := nextInt_fetch_ret h
    subst hp
    have hc : (fread 4 BUFFER_LENGTH_32 p.stdin).count ≠ 0 := by
      intro h0
      exact hz ⟨by rw [h0]; decide, h0⟩
    have h1 : (0 + 1) % 2 ^ 32 = 1 := by norm_num
    rw [hi]
    constructor
    · show 1 ≤ (0 + 1) % 2 ^ 32
      rw [h1]
    · show (0 + 1) % 2 ^ 32 ≤ (fread 4 BUFFER_LENGTH_32 p.stdin).count
      rw [h1]
      omega
  · obtain ⟨hb, hi, hp⟩ := nextInt_fetch_ret h
    subst hp
    unfold BUFFER_LENGTH_32 at hb
    rw [hi, Nat.mod_eq_of_lt (by omega)]
    omega

theorem nextLong_ret_index {e : Endian} {sta sta' : StdinReader_state} {p p' : Proc} {v : Nat}
    (h : nextLong e sta p = .ret (v, sta') p') :
    1 ≤ sta'.index ∧ sta'.index ≤ p'.nextLong_last_read := by
  rw [nextLong_eq_refilled] at h
  split_ifs at h with hr
  · unfold nextLong_refilled at h
    dsimp only at h
    split_ifs at h with hz
    obtain ⟨-, hi, hp⟩ := nextLong_fetch_ret h
    subst hp
    have hc : (fread 8 BUFFER_LENGTH_64 p.stdin).count ≠ 0 := by
      intro h0
      exact hz ⟨by rw [h0]; decide, h0⟩
    have h1 : (0 + 1) % 2 ^ 32 = 1 := by norm_num
    rw [hi]
    constructor
    · show 1 ≤ (0 + 1) % 2 ^ 32
      rw [h1]
    · show (0 + 1) % 2 ^ 32 ≤ (fread 8 BUFFER_LENGTH_64 p.stdin).count
      rw [h1]
      omega
  · obtain ⟨hb, hi, hp⟩ := nextLong_fetch_ret h
    subst hp
    unfold BUFFER_LENGTH_64 BUFFER_LENGTH_32 at hb
    rw [hi, Nat.mod_eq_of_lt (by omega)]
    omega

/-- C14, as stated, fails in the state `createStdinReader` produces: at
program start, on any input (here a stream of one word), the cursor is 2048
and the fill count, the `last_read` of `nextInt` as of `nextLong`, is 0. -/
theorem fresh_cursor_exceeds_fill :
    (createStdinReader (Proc.start (stream32 .little [7]) [] [])).1.state.index = 2048 ∧
    (createStdinReader (Proc.start (stream32 .little [7]) [] [])).2.nextInt_last_read = 0 ∧
    (createStdinReader (Proc.start (stream32 .little [7]) [] [])).2.nextLong_last_read = 0 ∧
    ¬ ((createStdinReader (Proc.start (stream32 .little [7]) [] [])).1.state.index ≤
        (createStdinReader (Proc.start (stream32 .little [7]) [] [])).2.nextInt_last_read) := by
  decide

/-- C14, amended: after every call of `nextInt` that returns the cursor is
at least 1 and at most the fill count (the `last_read` of `nextInt`), and the
same holds after every call of `nextLong` that returns, whatever the state
the call started in; the state `createStdinReader` produces has its cursor
at the capacity 2048, which is what makes the first call refill. -/
theorem cursor_le_fill_after_call (e : Endian) (sta32 sta32' sta64 sta64' : StdinReader_state)
    (p32 p32' p64 p64' : Proc) (v32 v64 : Nat)
    (h32 : nextInt e sta32 p32 = .ret (v32, sta32') p32')
    (h64 : nextLong e sta64 p64 = .ret (v64, sta64') p64') :
    (1 ≤ sta32'.index ∧ sta32'.index ≤ p32'.nextInt_last_read) ∧
    (1 ≤ sta64'.index ∧ sta64'.index ≤ p64'.nextLong_last_read) ∧
    (createStdinReader p32).1.state.index = BUFFER_LENGTH_32 :=
  ⟨nextInt_ret_index h32, nextLong_ret_index h64, rfl⟩

/-- Witness of C14 (amended): the first call on a fresh reader, of `nextInt`
on a stream of one 32-bit word and of `nextLong` on a stream of one 64-bit
word. -/
theorem cursor_le_fill_after_call_witness :
    ∃ sta32' p32' sta64' p64',
      nextInt .little (createStdinReader (Proc.start (stream32 .little [7]) [] [])).1.state
          (createStdinReader (Proc.start (stream32 .little [7]) [] [])).2 =
        .ret (7, sta32') p32' ∧
      nextLong .little (createStdinReader (Proc.start (stream64 .little [9]) [] [])).1.state
          (createStdinReader (Proc.start (stream64 .little [9]) [] [])).2 =
        .ret (9, sta64') p64' ∧
      (1 ≤ sta32'.index ∧ sta32'.index ≤ p32'.nextInt_last_read) ∧
      (1 ≤ sta64'.index ∧ sta64'.index ≤ p64'.nextLong_last_read) :=
  ⟨_, _, _, _, by rfl, by rfl,
   (cursor_le_fill_after_call .little
     (createStdinReader (Proc.start (stream32 .little [7]) [] [])).1.state _
     (createStdinReader (Proc.start (stream64 .little [9]) [] [])).1.state _
     (createStdinReader (Proc.start (stream32 .little [7]) [] [])).2 _
     (createStdinReader (Proc.start (stream64 .little [9]) [] [])).2 _ 7 9
     (by rfl) (by rfl)).1,
   (cursor_le_fill_after_call .little
     (createStdinReader (Proc.start (stream32 .little [7]) [] [])).1.state _
     (createStdinReader (Proc.start (stream64 .little [9]) [] [])).1.state _
     (createStdinReader (Proc.start (stream32 .little [7]) [] [])).2 _
     (createStdinReader (Proc.start (stream64 .little [9]) [] [])).2 _ 7 9
     (by rfl) (by rfl)).2.1⟩

/-! ## Buffer bounds -/

theorem length_gather_le (n : Nat) (src : List Item) : (gather n src).bytes.length ≤ n := by
  induction n generalizing src with
  | zero => simp [gather]
  | succ n ih =>
    cases src with
    | nil => simp [gather]
    | cons it rest =>
      cases it with
      | fault => simp [gather]
      | byte b =>
        have := ih rest
        simp only [gather, List.length_cons]
        omega

theorem fread_count_le (size nmemb : Nat) (f : FILE) : (fread size nmemb f).count ≤ nmemb := by
  unfold fread
  exact Nat.div_le_of_le_mul (length_gather_le _ _)

theorem nextInt_in_bounds (e : Endian) (sta : StdinReader_state) (p : Proc)
    (h : p.nextInt_last_read ≤ BUFFER_LENGTH_32) :
    (∃ code p', nextInt e sta p = .exit code p') ∨
    (∃ sta1 p1, nextInt e sta p = nextInt_fetch e sta1 p1 ∧
      sta1.index < p1.nextInt_last_read ∧ p1.nextInt_last_read ≤ BUFFER_LENGTH_32 ∧
      nextInt_fetch e sta1 p1 =
        .ret (load e 4 sta1.buffer sta1.index, { sta1 with index := sta1.index + 1 }) p1) := by
  have hfetch (sta1 : StdinReader_state) (p1 : Proc) (hi : sta1.index < p1.nextInt_last_read)
      (hl : p1.nextInt_last_read ≤ BUFFER_LENGTH_32) :
      nextInt_fetch e sta1 p1 =
        .ret (load e 4 sta1.buffer sta1.index, { sta1 with index := sta1.index + 1 }) p1 := by
    have h1 : sta1.index < BUFFER_LENGTH_32 := lt_of_lt_of_le hi hl
    have h2 : (sta1.index + 1) % 2 ^ 32 = sta1.index + 1 := by
      unfold BUFFER_LENGTH_32 at h1
      exact Nat.mod_eq_of_lt (by omega)
    simp only [nextInt_fetch, h1, if_true, h2]
  rw [nextInt_eq_refilled]
  split_ifs with hr
  · have hle := fread_count_le 4 BUFFER_LENGTH_32 p.stdin
    unfold nextInt_refilled
    dsimp only
    split_ifs with hz h1 h2
    · exact Or.inl ⟨_, _, rfl⟩
    · exact Or.inl ⟨_, _, rfl⟩
    · exact Or.inl ⟨_, _, rfl⟩
    · have hc : 0 < (fread 4 BUFFER_LENGTH_32 p.stdin).count := by
        rcases Nat.eq_zero_or_pos (fread 4 BUFFER_LENGTH_32 p.stdin).count with h0 | h0
        · exact absurd ⟨by rw [h0]; decide, h0⟩ hz
        · exact h0
      exact Or.inr ⟨_, _, rfl, hc, hle, hfetch _ _ hc hle⟩
  · exact Or.inr ⟨sta, p, rfl, by omega, h, hfetch _ _ (by omega) h⟩

theorem nextLong_in_bounds (e : Endian) (sta : StdinReader_state) (p : Proc)
    (h : p.nextLong_last_read ≤ BUFFER_LENGTH_64) :
    (∃ code p', nextLong e sta p = .exit code p') ∨
    (∃ sta1 p1, nextLong e sta p = nextLong_fetch e sta1 p1 ∧
      sta1.index < p1.nextLong_last_read ∧ p1.nextLong_last_read ≤ BUFFER_LENGTH_64 ∧
      nextLong_fetch e sta1 p1 =
        .ret (load e 8 sta1.buffer sta1.index, { sta1 with index := sta1.index + 1 }) p1) := by
  have hfetch (sta1 : StdinReader_state) (p1 : Proc) (hi : sta1.index < p1.nextLong_last_read)
      (hl : p1.nextLong_last_read ≤ BUFFER_LENGTH_64) :
      nextLong_fetch e sta1 p1 =
        .ret (load e 8 sta1.buffer sta1.index, { sta1 with index := sta1.index + 1 }) p1 := by
    have h1 : sta1.index < BUFFER_LENGTH_64 := lt_of_lt_of_le hi hl
    have h2 : (sta1.index + 1) % 2 ^ 32 = sta1.index + 1 := by
      unfold BUFFER_LENGTH_64 BUFFER_LENGTH_32 at h1
      exact Nat.mod_eq_of_lt (by omega)
    simp only [nextLong_fetch, h1, if_true, h2]
  rw [nextLong_eq_refilled]
  split_ifs with hr
  · have hle := fread_count_le 8 BUFFER_LENGTH_64 p.stdin
    unfold nextLong_refilled
    dsimp only
    split_ifs with hz h1 h2
    · exact Or.inl ⟨_, _, rfl⟩
    · exact Or.inl ⟨_, _, rfl⟩
    · exact Or.inl ⟨_, _, rfl⟩
    · have hc : 0 < (fread 8 BUFFER_LENGTH_64 p.stdin).count := by
        rcases Nat.eq_zero_or_pos (fread 8 BUFFER_LENGTH_64 p.stdin).count with h0 | h0
        · exact absurd ⟨by rw [h0]; decide, h0⟩ hz
        · exact h0
      exact Or.inr ⟨_, _, rfl, hc, hle, hfetch _ _ hc hle⟩
  · exact Or.inr ⟨sta, p, rfl, by omega, h, hfetch _ _ (by omega) h⟩

theorem nextInt_ne_undefined (e : Endian) (sta : StdinReader_state) (p : Proc)
    (h : p.nextInt_last_read ≤ BUFFER_LENGTH_32) : nextInt e sta p ≠ .undefined := by
  rcases nextInt_in_bounds e sta p h with ⟨c, p', hx⟩ | ⟨sta1, p1, hx, -, -, hf⟩
  · rw [hx]; exact fun h => Res.noConfusion h
  · rw [hx, hf]; exact fun h => Res.noConfusion h

theorem nextLong_ne_undefined (e : Endian) (sta : StdinReader_state) (p : Proc)
    (h : p.nextLong_last_read ≤ BUFFER_LENGTH_64) : nextLong e sta p ≠ .undefined := by
  rcases nextLong_in_bounds e sta p h with ⟨c, p', hx⟩ | ⟨sta1, p1, hx, -, -, hf⟩
  · rw [hx]; exact fun h => Res.noConfusion h
  · rw [hx, hf]; exact fun h => Res.noConfusion h

theorem nextInt_ret_last_read_le {e : Endian} {sta sta' : StdinReader_state} {p p' : Proc}
    {v : Nat} (h : p.nextInt_last_read ≤ BUFFER_LENGTH_32)
    (hc : nextInt e sta p = .ret (v, sta') p') : p'.nextInt_last_read ≤ BUFFER_LENGTH_32 := by
  rcases nextInt_in_bounds e sta p h with ⟨c, q, hx⟩ | ⟨sta1, p1, hx, -, hl, hf⟩
  · rw [hx] at hc; exact Res.noConfusion hc
  · rw [hx, hf] at hc
    cases hc
    exact hl

theorem nextLong_ret_last_read_le {e : Endian} {sta sta' : StdinReader_state} {p p' : Proc}
    {v : Nat} (h : p.nextLong_last_read ≤ BUFFER_LENGTH_64)
    (hc : nextLong e sta p = .ret (v, sta') p') : p'.nextLong_last_read ≤ BUFFER_LENGTH_64 := by
  rcases nextLong_in_bounds e sta p h with ⟨c, q, hx⟩ | ⟨sta1, p1, hx, -, hl, hf⟩
  · rw [hx] at hc; exact Res.noConfusion hc
  · rw [hx, hf] at hc
    cases hc
    exact hl

theorem reach32_last_read_le {e : Endian} {p0 p : Proc} {sta : StdinReader_state}
    (h : Reach32 e p0 sta p) : p.nextInt_last_read ≤ BUFFER_LENGTH_32 := by
  induction h with
  | fresh h0 => simp [createStdinReader, h0]
  | call _ hc ih => exact nextInt_ret_last_read_le ih hc
  | print _ _ ih => exact ih

theorem reach64_last_read_le {e : Endian} {p0 p : Proc} {sta : StdinReader_state}
    (h : Reach64 e p0 sta p) : p.nextLong_last_read ≤ BUFFER_LENGTH_64 := by
  induction h with
  | fresh h0 => simp [createStdinReader, h0]
  | call _ hc ih => exact nextLong_ret_last_read_le ih hc
  | print _ _ ih => exact ih

theorem raw32_loop_ne_undefined (e : Endian) (p0 : Proc) (count : Nat)
    (sta : StdinReader_state) (p : Proc) (h : Reach32 e p0 sta p) :
    raw32_loop e count sta p ≠ .undefined := by
  induction count generalizing sta p with
  | zero => exact fun h => Res.noConfusion h
  | succ count ih =>
    unfold raw32_loop
    have hne := nextInt_ne_undefined e sta p (reach32_last_read_le h)
    cases hn : nextInt e sta p with
    | ret a q =>
      obtain ⟨v, sta'⟩ := a
      exact ih sta' _ (Reach32.print _ (Reach32.call h hn))
    | exit c q => exact fun h => Res.noConfusion h
    | undefined => exact absurd hn hne

theorem raw64_loop_ne_undefined (e : Endian) (p0 : Proc) (count : Nat)
    (sta : StdinReader_state) (p : Proc) (h : Reach64 e p0 sta p) :
    raw64_loop e count sta p ≠ .undefined := by
  induction count generalizing sta p with
  | zero => exact fun h => Res.noConfusion h
  | succ count ih =>
    unfold raw64_loop
    have hne := nextLong_ne_undefined e sta p (reach64_last_read_le h)
    cases hn : nextLong e sta p with
    | ret a q =>
      obtain ⟨v, sta'⟩ := a
      exact ih sta' _ (Reach64.print _ (Reach64.call h hn))
    | exit c q => exact fun h => Res.noConfusion h
    | undefined => exact absurd hn hne

/-- C19: every buffer read of the reader is in bounds.  The state
`createStdinReader` produces has cursor 2048.  In every state the 32-bit
reader reaches over the life of the process, whatever the input stream
delivers and however many calls were made, a call of `nextInt` either ends the
process or gets to its read `buffer[index]` (`nextInt_fetch`) with
index < fill count ≤ 2048, and that read returns; the same holds for
`nextLong` in mode "raw64" with index < fill count ≤ 1024.  So neither a call
nor a loop of `main`, for any count, ever indexes the buffer outside the
array. -/
theorem buffer_reads_in_bounds (e : Endian) (p0 : Proc) (sta32 sta64 : StdinReader_state)
    (p32 p64 : Proc) (count : Nat)
    (h32 : Reach32 e p0 sta32 p32) (h64 : Reach64 e p0 sta64 p64) :
    (createStdinReader p0).1.state.index = 2048 ∧
    ((∃ code p', nextInt e sta32 p32 = .exit code p') ∨
     (∃ sta1 p1, nextInt e sta32 p32 = nextInt_fetch e sta1 p1 ∧
        sta1.index < p1.nextInt_last_read ∧ p1.nextInt_last_read ≤ 2048 ∧
        nextInt_fetch e sta1 p1 =
          .ret (load e 4 sta1.buffer sta1.index, { sta1 with index := sta1.index + 1 }) p1)) ∧
    nextInt e sta32 p32 ≠ .undefined ∧
    raw32_loop e count sta32 p32 ≠ .undefined ∧
    ((∃ code p', nextLong e sta64 p64 = .exit code p') ∨
     (∃ sta1 p1, nextLong e sta64 p64 = nextLong_fetch e sta1 p1 ∧
        sta1.index < p1.nextLong_last_read ∧ p1.nextLong_last_read ≤ 1024 ∧
        nextLong_fetch e sta1 p1 =
          .ret (load e 8 sta1.buffer sta1.index, { sta1 with index := sta1.index + 1 }) p1)) ∧
    nextLong e sta64 p64 ≠ .undefined ∧
    raw64_loop e count sta64 p64 ≠ .undefined :=
  ⟨rfl,
   nextInt_in_bounds e sta32 p32 (reach32_last_read_le h32),
   nextInt_ne_undefined e sta32 p32 (reach32_last_read_le h32),
   raw32_loop_ne_undefined e p0 count sta32 p32 h32,
   nextLong_in_bounds e sta64 p64 (reach64_last_read_le h64),
   nextLong_ne_undefined e sta64 p64 (reach64_last_read_le h64),
   raw64_loop_ne_undefined e p0 count sta64 p64 h64⟩

/-- Witness of C19: the fresh readers of a process whose input is one word
followed by a failed read. -/
theorem buffer_reads_in_bounds_witness :
    (Reach32 .little (Proc.start (stream32 .little [7] ++ [Item.fault]) [] [])
        (createStdinReader (Proc.start (stream32 .little [7] ++ [Item.fault]) [] [])).1.state
        (createStdinReader (Proc.start (stream32 .little [7] ++ [Item.fault]) [] [])).2 ∧
      Reach64 .little (Proc.start (stream32 .little [7] ++ [Item.fault]) [] [])
        (createStdinReader (Proc.start (stream32 .little [7] ++ [Item.fault]) [] [])).1.state
        (createStdinReader (Proc.start (stream32 .little [7] ++ [Item.fault]) [] [])).2) ∧
    nextInt .little
        (createStdinReader (Proc.start (stream32 .little [7] ++ [Item.fault]) [] [])).1.state
        (createStdinReader (Proc.start (stream32 .little [7] ++ [Item.fault]) [] [])).2
      ≠ .undefined ∧
    raw32_loop .little 5
        (createStdinReader (Proc.start (stream32 .little [7] ++ [Item.fault]) [] [])).1.state
        (createStdinReader (Proc.start (stream32 .little [7] ++ [Item.fault]) [] [])).2
      ≠ .undefined ∧
    nextLong .little
        (createStdinReader (Proc.start (stream32 .little [7] ++ [Item.fault]) [] [])).1.state
        (createStdinReader (Proc.start (stream32 .little [7] ++ [Item.fault]) [] [])).2
      ≠ .undefined :=
  ⟨⟨Reach32.fresh rfl, Reach64.fresh rfl⟩,
   (buffer_reads_in_bounds .little (Proc.start (stream32 .little [7] ++ [Item.fault]) [] [])
     _ _ _ _ 5 (Reach32.fresh rfl) (Reach64.fresh rfl)).2.2.1,
   (buffer_reads_in_bounds .little (Proc.start (stream32 .little [7] ++ [Item.fault]) [] [])
     _ _ _ _ 5 (Reach32.fresh rfl) (Reach64.fresh rfl)).2.2.2.1,
   (buffer_reads_in_bounds .little (Proc.start (stream32 .little [7] ++ [Item.fault]) [] [])
     _ _ _ _ 5 (Reach32.fresh rfl) (Reach64.fresh rfl)).2.2.2.2.2.1⟩

/-! ## Capacities -/

theorem fread_of_enough (size nmemb : Nat) (f : FILE) (bs : List Byte) (hsize : 0 < size)
    (h : f.src = bs.map Item.byte) (hlen : size * nmemb ≤ bs.length) :
    (fread size nmemb f).count = nmemb ∧ (fread size nmemb f).bytes = bs.take (size * nmemb) := by
  simp only [fread, h, gather_bytes, List.length_take, Nat.min_eq_left hlen,
    Nat.mul_div_cancel_left _ hsize, and_self]

/-- C15, as stated, fails: the 64-bit buffer has 1024 elements and the 32-bit
buffer 2048, not the same number, and a full buffer is 8 * 1024 = 4 * 2048 =
8192 octets for both. -/
theorem buffer_capacities_differ :
    BUFFER_LENGTH_32 = 2048 ∧ BUFFER_LENGTH_64 = 1024 ∧
    BUFFER_LENGTH_64 ≠ BUFFER_LENGTH_32 ∧
    8 * BUFFER_LENGTH_64 = 4 * BUFFER_LENGTH_32 ∧
    2 * (8 * BUFFER_LENGTH_64) ≠ 4 * BUFFER_LENGTH_32 := by
  decide

/-- C15, amended: the 64-bit reader has half the capacity of the 32-bit
reader counted in elements, 1024 against 2048, so that both buffers have the
same size in octets; on a stream that still holds 8192 octets, a refill of
either reader is full, 2048 words of 4 octets or 1024 words of 8, and both
transfer the same 8192 octets. -/
theorem full_refill_same_octets (f : FILE) (bs : List Byte)
    (h : f.src = bs.map Item.byte) (hlen : 8192 ≤ bs.length) :
    2 * BUFFER_LENGTH_64 = BUFFER_LENGTH_32 ∧
    (fread 4 BUFFER_LENGTH_32 f).count = 2048 ∧
    (fread 8 BUFFER_LENGTH_64 f).count = 1024 ∧
    (fread 4 BUFFER_LENGTH_32 f).bytes = bs.take 8192 ∧
    (fread 8 BUFFER_LENGTH_64 f).bytes = bs.take 8192 ∧
    (fread 8 BUFFER_LENGTH_64 f).bytes.length = 8192 := by
  obtain ⟨c32, b32⟩ := fread_of_enough 4 BUFFER_LENGTH_32 f bs (by norm_num) h hlen
  obtain ⟨c64, b64⟩ := fread_of_enough 8 BUFFER_LENGTH_64 f bs (by norm_num) h hlen
  refine ⟨by decide, c32, c64, b32, b64, ?_⟩
  rw [b64, List.length_take]
  exact Nat.min_eq_left hlen

/-- Witness of C15 (amended): a stream of 8192 octets, all zero. -/
theorem full_refill_same_octets_witness :
    (8192 ≤ (List.replicate 8192 (0 : Byte)).length) ∧
    (fread 4 BUFFER_LENGTH_32
        ⟨(List.replicate 8192 (0 : Byte)).map Item.byte, false, false, true, 0⟩).count = 2048 ∧
    (fread 8 BUFFER_LENGTH_64
        ⟨(List.replicate 8192 (0 : Byte)).map Item.byte, false, false, true, 0⟩).count = 1024 ∧
    (fread 4 BUFFER_LENGTH_32
        ⟨(List.replicate 8192 (0 : Byte)).map Item.byte, false, false, true, 0⟩).bytes =
      (fread 8 BUFFER_LENGTH_64
        ⟨(List.replicate 8192 (0 : Byte)).map Item.byte, false, false, true, 0⟩).bytes :=
  ⟨le_of_eq (List.length_replicate _ _).symm,
   (full_refill_same_octets ⟨(List.replicate 8192 (0 : Byte)).map Item.byte, false, false, true, 0⟩
     (List.replicate 8192 0) rfl (le_of_eq (List.length_replicate _ _).symm)).2.1,
   (full_refill_same_octets ⟨(List.replicate 8192 (0 : Byte)).map Item.byte, false, false, true, 0⟩
     (List.replicate 8192 0) rfl (le_of_eq (List.length_replicate _ _).symm)).2.2.1,
   ((full_refill_same_octets
     ⟨(List.replicate 8192 (0 : Byte)).map Item.byte, false, false, true, 0⟩
     (List.replicate 8192 0) rfl (le_of_eq (List.length_replicate _ _).symm)).2.2.2.1).trans
    ((full_refill_same_octets
     ⟨(List.replicate 8192 (0 : Byte)).map Item.byte, false, false, true, 0⟩
     (List.replicate 8192 0) rfl (le_of_eq (List.length_replicate _ _).symm)).2.2.2.2.1).symm⟩

/-! ## The endianness probe -/

set_option maxRecDepth 100000 in
/-- C16: the probe stores the 4-byte unsigned value 1 and looks at the octet
at the lowest address.  That octet is non-zero exactly on a host that stores
the least significant octet first, and there the output begins with the line
"Little-endian"; on a host that stores the most significant octet first it
begins with the line "Big-endian".  The other of the two lines stands nowhere
in the output, run without an argument the program writes that one line and
nothing else, and `main` returns 0 in all cases. -/
theorem testendianness_reports_byte_order (e : Endian) (argc : Nat) :
    (testendianness_main e argc).2 = 0 ∧
    ((toBytes e 4 1).getD 0 0 ≠ 0 ↔ e = .little) ∧
    toBytes .little 4 1 = [1, 0, 0, 0] ∧ toBytes .big 4 1 = [0, 0, 0, 1] ∧
    (if e = .little then "Little-endian\n" else "Big-endian\n").toList <+:
      (testendianness_main e argc).1 ∧
    ¬ ((if e = .little then "Big-endian\n" else "Little-endian\n").toList <:+:
      (testendianness_main e argc).1) ∧
    (testendianness_main e 1).1 =
      (if e = .little then "Little-endian\n" else "Big-endian\n").toList := by
  refine ⟨rfl, ?_, by decide, by decide, ?_, ?_, ?_⟩
  · cases e <;> decide
  · by_cases h : argc > 1
    · cases e
      · simp only [testendianness_main, h, if_true]; decide
      · simp only [testendianness_main, h, if_true]; decide
    · cases e
      · simp only [testendianness_main, h, if_false]; decide
      · simp only [testendianness_main, h, if_false]; decide
  · by_cases h : argc > 1
    · cases e
      · simp only [testendianness_main, h, if_true]; decide
      · simp only [testendianness_main, h, if_true]; decide
    · cases e
      · simp only [testendianness_main, h, if_false]; decide
      · simp only [testendianness_main, h, if_false]; decide
  · cases e <;> decide

end Stdin2TestU01
